import Mathlib

/-!
Shallow embedding of the FinTech multi-agent system
(message bus, saga coordinator / transaction-processing agent,
blockchain ledger agent, and the validator agents' message handlers),
together with theorems checking the natural-language specification
against the embedded code.

Modelling conventions:
* Python `dict`s keyed by strings are modelled as insertion-ordered
  association lists (`List (String × _)`); insertion with an existing key
  replaces the stored value in place, matching CPython semantics.
* Heterogeneous payload values (`Dict[str, Any]`) use the `Value` type.
* `datetime.now()` instants and generated `uuid4()` identifiers are passed
  in as explicit parameters (`now : Nat`, fresh `String` ids); ISO-8601
  rendering of an instant is injective, so an instant token stands for its
  rendered string in payloads.
* Monetary amounts are floats in the source but are only ever carried
  through, never computed with, in the code under study; they are carried
  as `Int` here.
* `hashlib.sha256(...).hexdigest()` is an uninterpreted function
  `H : HashInput → String` over exactly the fields the source interpolates
  into the hashed string; every definition is parametric in `H`.
* The unbounded proof-of-work `while` loop is modelled with explicit fuel:
  exhausting the fuel models non-termination and surfaces as `none`.
-/

/-- Payload value: heterogeneous values stored in a message payload
(`Dict[str, Any]` in the source). -/
inductive Value where
  | str : String → Value
  | int : Int → Value
  | bool : Bool → Value
  | dict : List (String × Value) → Value
  | list : List Value → Value
  | null : Value

/-- Python truthiness of a payload value (`if v:`). -/
def Value.truthy : Value → Bool
  | .str s => !s.isEmpty
  | .int n => n != 0
  | .bool b => b
  | .dict es => !es.isEmpty
  | .list vs => !vs.isEmpty
  | .null => false

/-- Lookup in an insertion-ordered string-keyed dictionary
(`d.get(k)` / `d[k]`). -/
def dictGet (k : String) : List (String × α) → Option α
  | [] => none
  | (k', v) :: rest => if k' = k then some v else dictGet k rest

/-- Key-membership test (`k in d`). -/
def dictContains (k : String) (d : List (String × α)) : Bool :=
  (dictGet k d).isSome

/-- Insertion (`d[k] = v`): replaces in place when the key exists,
appends otherwise, matching CPython ordered-dict semantics. -/
def dictInsert (k : String) (v : α) : List (String × α) → List (String × α)
  | [] => [(k, v)]
  | (k', v') :: rest =>
      if k' = k then (k, v) :: rest else (k', v') :: dictInsert k v rest

/-- Removal (`d.pop(k)`): drops the first entry carrying the key. -/
def dictPop (k : String) : List (String × α) → List (String × α)
  | [] => []
  | (k', v') :: rest => if k' = k then rest else (k', v') :: dictPop k rest

/-- Key sequence of a dictionary, in insertion order. -/
def dictKeys (d : List (String × α)) : List String :=
  d.map Prod.fst

/-- Merge used for Python dict displays with spreads,
as in a payload literal that starts from fixed entries and then
splats another dict over them. -/
def dictMerge (base extra : List (String × α)) : List (String × α) :=
  extra.foldl (fun acc kv => dictInsert kv.1 kv.2 acc) base

/-- Extract a string payload field with a default
(`p.get(k, dflt)` used where the source expects a string).
A non-string stored value could never match any string-keyed
dictionary lookup nor a string field comparison downstream, so it is
collapsed to the default. -/
def pyGetStrD (d : List (String × Value)) (k dflt : String) : String :=
  match dictGet k d with
  | some (.str s) => s
  | _ => dflt

/-- Extract an optional string payload field (`p.get(k)` when the source
then uses the result as a dictionary key or compares it to strings;
`None` or a non-string never matches a string key). -/
def pyGetStr? (d : List (String × Value)) (k : String) : Option String :=
  match dictGet k d with
  | some (.str s) => some s
  | _ => none

/-- Extract a numeric payload field with a default (`p.get(k, 0.0)`). -/
def pyGetIntD (d : List (String × Value)) (k : String) (dflt : Int) : Int :=
  match dictGet k d with
  | some (.int n) => n
  | _ => dflt

/-- Extract a payload field and apply Python truthiness to it with a
default (`if p.get(k, dflt):`). -/
def pyGetTruthyD (d : List (String × Value)) (k : String) (dflt : Bool) : Bool :=
  match dictGet k d with
  | some v => v.truthy
  | none => dflt

/-- Message envelope (`Message` dataclass of the inter-agent protocol). -/
structure Message where
  id : String
  sender : String
  recipient : String
  message_type : String
  payload : List (String × Value)
  timestamp : Nat
  correlation_id : Option String := none

/-- Outbound message request: the argument tuple an agent passes to
`send_message(recipient, message_type, payload, correlation_id)`.
The bus completes it into a `Message` with a fresh id and timestamp. -/
structure OutMsg where
  recipient : String
  message_type : String
  payload : List (String × Value)
  correlation_id : Option String := none

/-! ## Message bus -/

/-- State of the `MessageBus`: the append-only history and the ordered
directory of registered participant ids.  The participant objects
themselves are modelled separately by each agent's handler function;
the `Bool` returned by `bus_send_message` records whether the
recipient's receive hook is invoked. -/
structure BusState where
  message_history : List Message
  agents : List String

/-- Fresh bus (`MessageBus.__init__`). -/
def busInit : BusState := { message_history := [], agents := [] }

/-- Registration (`register_agent`): dictionary assignment on the
participant directory; re-registering an id keeps its position. -/
def busRegister (bus : BusState) (agent_id : String) : BusState :=
  if bus.agents.contains agent_id then bus
  else { bus with agents := bus.agents ++ [agent_id] }

/-- Embedding of `MessageBus.send_message`: constructs the `Message`,
appends it to the history, and reports whether the recipient is
registered (in which case, and only in which case, the source invokes
`self.agents[recipient].receive_message(message)`). -/
def bus_send_message (bus : BusState) (newId : String) (now : Nat)
    (sender recipient message_type : String)
    (payload : List (String × Value)) (correlation_id : Option String) :
    Message × BusState × Bool :=
  let m : Message :=
    { id := newId, sender := sender, recipient := recipient,
      message_type := message_type, payload := payload,
      timestamp := now, correlation_id := correlation_id }
  (m, { bus with message_history := bus.message_history ++ [m] },
   bus.agents.contains recipient)

/-! ## Saga coordinator (transaction-processing agent) -/

/-- Transaction record (`Transaction` dataclass). -/
structure Transaction where
  id : String
  amount : Int
  sender_account : String
  recipient_account : String
  currency : String := "USD"
  timestamp : Nat
  status : String := "pending"
  metadata : List (String × Value) := []

/-- Coordinator state: the three transaction dictionaries of
`TransactionProcessingAgent`. -/
structure TPAState where
  pending_transactions : List (String × Transaction)
  completed_transactions : List (String × Transaction)
  failed_transactions : List (String × Transaction)

/-- Initial coordinator state (`__init__`). -/
def tpaInit : TPAState :=
  { pending_transactions := [], completed_transactions := [],
    failed_transactions := [] }

/-- Embedding of `create_transaction`; the generated `uuid4` id and the
creation instant are explicit parameters. -/
def create_transaction (st : TPAState) (newId : String) (now : Nat)
    (amount : Int) (sender_account recipient_account currency : String)
    (metadata : List (String × Value)) : Transaction × TPAState :=
  let tx : Transaction :=
    { id := newId, amount := amount, sender_account := sender_account,
      recipient_account := recipient_account, currency := currency,
      timestamp := now, status := "pending", metadata := metadata }
  (tx, { st with
          pending_transactions := dictInsert newId tx st.pending_transactions })

/-- Embedding of `process_transaction`: the saga fan-out.  Returns the
source's `True` together with the three request messages handed to
`send_message`. -/
def process_transaction (tx : Transaction) : Bool × List OutMsg :=
  (true,
   [{ recipient := "fraud_detector", message_type := "fraud_check_request",
      payload :=
        [("transaction_id", .str tx.id),
         ("transaction_data", .dict
           [("amount", .int tx.amount),
            ("sender_account", .str tx.sender_account),
            ("recipient_account", .str tx.recipient_account),
            ("currency", .str tx.currency)])],
      correlation_id := some tx.id },
    { recipient := "compliance_agent", message_type := "compliance_check_request",
      payload :=
        [("transaction_id", .str tx.id),
         ("transaction_data", .dict
           [("amount", .int tx.amount),
            ("sender_account", .str tx.sender_account),
            ("recipient_account", .str tx.recipient_account),
            ("currency", .str tx.currency)])],
      correlation_id := some tx.id },
    { recipient := "resource_allocator", message_type := "resource_request",
      payload :=
        [("transaction_id", .str tx.id),
         ("processing_priority", .str "normal"),
         ("estimated_complexity", .str "low")],
      correlation_id := some tx.id }])

/-- Embedding of `complete_transaction`: returns the source's boolean
result, the updated state, and the audit notification sent. -/
def complete_transaction (st : TPAState) (transaction_id : String) :
    Bool × TPAState × List OutMsg :=
  match dictGet transaction_id st.pending_transactions with
  | some tx =>
      let tx' := { tx with status := "completed" }
      (true,
       { st with
          pending_transactions := dictPop transaction_id st.pending_transactions,
          completed_transactions :=
            dictInsert transaction_id tx' st.completed_transactions },
       [{ recipient := "audit_agent", message_type := "transaction_completed",
          payload :=
            [("transaction_id", .str transaction_id),
             ("amount", .int tx.amount),
             ("timestamp", .int tx.timestamp)] }])
  | none => (false, st, [])

/-- Embedding of `fail_transaction`; `now` is the `datetime.now()`
instant stamped into the audit notification. -/
def fail_transaction (st : TPAState) (now : Nat)
    (transaction_id reason : String) : Bool × TPAState × List OutMsg :=
  match dictGet transaction_id st.pending_transactions with
  | some tx =>
      let tx' :=
        { tx with
            status := "failed",
            metadata := dictInsert "failure_reason" (.str reason) tx.metadata }
      (true,
       { st with
          pending_transactions := dictPop transaction_id st.pending_transactions,
          failed_transactions :=
            dictInsert transaction_id tx' st.failed_transactions },
       [{ recipient := "audit_agent", message_type := "transaction_failed",
          payload :=
            [("transaction_id", .str transaction_id),
             ("reason", .str reason),
             ("timestamp", .int now)] }])
  | none => (false, st, [])

/-- Embedding of `_handle_fraud_response`.  A missing or non-string
`transaction_id` can never be a key of the string-keyed pending
dictionary, so the `fail_transaction` call it would reach in the source
is the identity no-op collapsed here. -/
def handleFraudResponse (st : TPAState) (now : Nat) (msg : Message) :
    TPAState × List OutMsg :=
  let is_fraudulent := pyGetTruthyD msg.payload "is_fraudulent" false
  if is_fraudulent then
    let reason := pyGetStrD msg.payload "reason" "Fraudulent transaction detected"
    match pyGetStr? msg.payload "transaction_id" with
    | some tid =>
        let r := fail_transaction st now tid ("Fraud detected: " ++ reason)
        (r.2.1, r.2.2)
    | none => (st, [])
  else (st, [])

/-- Embedding of `_handle_compliance_response`. -/
def handleComplianceResponse (st : TPAState) (now : Nat) (msg : Message) :
    TPAState × List OutMsg :=
  let is_compliant := pyGetTruthyD msg.payload "is_compliant" true
  if is_compliant then (st, [])
  else
    let reason := pyGetStrD msg.payload "reason" "Compliance violation detected"
    match pyGetStr? msg.payload "transaction_id" with
    | some tid =>
        let r := fail_transaction st now tid ("Compliance violation: " ++ reason)
        (r.2.1, r.2.2)
    | none => (st, [])

/-- Embedding of `_handle_resource_allocation`. -/
def handleResourceAllocation (st : TPAState) (msg : Message) :
    TPAState × List OutMsg :=
  match pyGetStr? msg.payload "transaction_id" with
  | some tid =>
      if dictContains tid st.pending_transactions then
        let r := complete_transaction st tid
        (r.2.1, r.2.2)
      else (st, [])
  | none => (st, [])

/-- Embedding of the coordinator's `process_message` dispatch. -/
def tpaProcessMessage (st : TPAState) (now : Nat) (msg : Message) :
    TPAState × List OutMsg :=
  if msg.message_type = "fraud_check_response" then
    handleFraudResponse st now msg
  else if msg.message_type = "compliance_check_response" then
    handleComplianceResponse st now msg
  else if msg.message_type = "resource_allocated" then
    handleResourceAllocation st msg
  else (st, [])

/-- Snapshot returned by `get_transaction_status`. -/
structure TransactionSnapshot where
  id : String
  status : String
  amount : Int
  sender_account : String
  recipient_account : String
  currency : String
  timestamp : Nat
  metadata : List (String × Value)

/-- Snapshot of one stored transaction. -/
def snapshotOf (tx : Transaction) : TransactionSnapshot :=
  { id := tx.id, status := tx.status, amount := tx.amount,
    sender_account := tx.sender_account,
    recipient_account := tx.recipient_account, currency := tx.currency,
    timestamp := tx.timestamp, metadata := tx.metadata }

/-- Embedding of `get_transaction_status`: scans the pending, completed
and failed dictionaries in that order. -/
def get_transaction_status (st : TPAState) (transaction_id : String) :
    Option TransactionSnapshot :=
  match dictGet transaction_id st.pending_transactions with
  | some tx => some (snapshotOf tx)
  | none =>
    match dictGet transaction_id st.completed_transactions with
    | some tx => some (snapshotOf tx)
    | none =>
      match dictGet transaction_id st.failed_transactions with
      | some tx => some (snapshotOf tx)
      | none => none

/-! ## Ledger (blockchain agent) -/

/-- Transaction record as stored inside a block: the dictionary built
from each mined `BlockchainTransaction` in `mine_pending_transactions`. -/
structure TxRecord where
  id : String
  transaction_id : String
  amount : Int
  sender : String
  recipient : String
  timestamp : Nat
deriving DecidableEq

/-- Block of the chain (`Block` dataclass). -/
structure Block where
  index : Nat
  timestamp : Nat
  transactions : List TxRecord
  previous_hash : String
  hash : String
  nonce : Nat := 0
deriving DecidableEq

/-- Ledger-side transaction (`BlockchainTransaction` dataclass). -/
structure BlockchainTransaction where
  id : String
  transaction_id : String
  amount : Int
  sender : String
  recipient : String
  timestamp : Nat
  status : String := "pending"
  block_index : Option Nat := none
deriving DecidableEq

/-- Input of the hash function: exactly the fields the source
interpolates into the hashed block string
(index, timestamp, transactions, previous hash, nonce — the stored
`hash` field itself is excluded). -/
structure HashInput where
  index : Nat
  timestamp : Nat
  transactions : List TxRecord
  previous_hash : String
  nonce : Nat
deriving DecidableEq

/-- Embedding of `_calculate_hash`: applies the (uninterpreted) sha256
hex digest `H` to the block string's fields. -/
def calculateHash (H : HashInput → String) (b : Block) : String :=
  H { index := b.index, timestamp := b.timestamp,
      transactions := b.transactions, previous_hash := b.previous_hash,
      nonce := b.nonce }

/-- Mining difficulty (`self.difficulty = 4`). -/
def difficulty : Nat := 4

/-- Proof-of-work target, the string of `difficulty` zero characters. -/
def powTarget : String := String.join (List.replicate difficulty "0")

/-- Python `str.startswith`. -/
def pyStartsWith (s pre : String) : Bool :=
  pre.data.isPrefixOf s.data

/-- Embedding of the `while` loop of `_mine_block`, with explicit fuel:
each step increments the nonce and recomputes the hash; `none` models a
search that has not terminated within `fuel` iterations. -/
def mineBlockAux (H : HashInput → String) : Nat → Block → Option Block
  | 0, b => if pyStartsWith b.hash powTarget then some b else none
  | fuel + 1, b =>
      if pyStartsWith b.hash powTarget then some b
      else
        let b' := { b with nonce := b.nonce + 1 }
        mineBlockAux H fuel { b' with hash := calculateHash H b' }

/-- Dummy block used only to totalize Python list indexing that cannot
fail on the states the program actually reaches. -/
def dummyBlock : Block :=
  { index := 0, timestamp := 0, transactions := [], previous_hash := "",
    hash := "", nonce := 0 }

/-- Hash of the chain tip (`self.chain[-1].hash`; the chain is never
empty after initialization). -/
def chainTipHash (c : List Block) : String :=
  (c.getLastD dummyBlock).hash

/-- State of the `BlockchainAgent`. -/
structure LedgerState where
  chain : List Block
  pending_transactions : List BlockchainTransaction
  confirmed_transactions : List (String × BlockchainTransaction)
deriving DecidableEq

/-- Embedding of `_create_genesis_block`: the genesis block's hash is
computed once with `_calculate_hash`; `_mine_block` is never applied to
it in the source. -/
def genesisBlock (H : HashInput → String) (t0 : Nat) : Block :=
  let g : Block :=
    { index := 0, timestamp := t0, transactions := [],
      previous_hash := "0", hash := "", nonce := 0 }
  { g with hash := calculateHash H g }

/-- Initial ledger state (`__init__` followed by
`_create_genesis_block`). -/
def ledgerInit (H : HashInput → String) (t0 : Nat) : LedgerState :=
  { chain := [genesisBlock H t0], pending_transactions := [],
    confirmed_transactions := [] }

/-- Embedding of `create_blockchain_transaction`; the generated uuid and
the creation instant are explicit parameters. -/
def create_blockchain_transaction (newId : String) (now : Nat)
    (transaction_data : List (String × Value)) (st : LedgerState) :
    BlockchainTransaction × LedgerState :=
  let btx : BlockchainTransaction :=
    { id := newId,
      transaction_id := pyGetStrD transaction_data "transaction_id" "",
      amount := pyGetIntD transaction_data "amount" 0,
      sender := pyGetStrD transaction_data "sender_account" "",
      recipient := pyGetStrD transaction_data "recipient_account" "",
      timestamp := now }
  (btx, { st with
           pending_transactions := st.pending_transactions ++ [btx] })

/-- Dictionary form of one mined transaction as stored in the block. -/
def toRecord (tx : BlockchainTransaction) : TxRecord :=
  { id := tx.id, transaction_id := tx.transaction_id, amount := tx.amount,
    sender := tx.sender, recipient := tx.recipient,
    timestamp := tx.timestamp }

/-- Embedding of `mine_pending_transactions`.  The outer `none` models
a proof-of-work search that does not terminate within `fuel` loop
iterations; the source's `return None` on an empty queue is the inner
`none`. -/
def mine_pending_transactions (H : HashInput → String) (fuel : Nat)
    (now : Nat) (st : LedgerState) : Option (Option Block × LedgerState) :=
  if st.pending_transactions.isEmpty then some (none, st)
  else
    let transactions_to_mine := st.pending_transactions.take 10
    let transaction_data := transactions_to_mine.map toRecord
    let new_block : Block :=
      { index := st.chain.length, timestamp := now,
        transactions := transaction_data,
        previous_hash := chainTipHash st.chain, hash := "", nonce := 0 }
    match mineBlockAux H fuel new_block with
    | none => none
    | some mined_block =>
        let confirmed := transactions_to_mine.map
          (fun tx => { tx with
                        status := "confirmed",
                        block_index := some mined_block.index })
        some (some mined_block,
          { chain := st.chain ++ [mined_block],
            pending_transactions := st.pending_transactions.drop 10,
            confirmed_transactions :=
              confirmed.foldl (fun d tx => dictInsert tx.id tx d)
                st.confirmed_transactions })

/-- Python `list.index` (position of the first equal element; the
source always calls it on an element found in the list, so the
out-of-list value is irrelevant). -/
def pyListIndex [DecidableEq α] (x : α) : List α → Nat
  | [] => 0
  | a :: as => if a = x then 0 else pyListIndex x as + 1

/-- Embedding of `verify_transaction`: scans the confirmed dictionary's
values first, then the pending queue, and returns the result dictionary
the source builds in each branch. -/
def verify_transaction (st : LedgerState) (transaction_id : String) :
    List (String × Value) :=
  match st.confirmed_transactions.find?
      (fun p => p.2.transaction_id == transaction_id) with
  | some p =>
      let btx := p.2
      let bi := btx.block_index.getD 0
      let block := st.chain.getD bi dummyBlock
      [("verified", .bool true),
       ("status", .str "confirmed"),
       ("block_index", .int bi),
       ("block_hash", .str block.hash),
       ("confirmations", .int ((st.chain.length : Int) - (bi : Int))),
       ("blockchain_tx_id", .str btx.id)]
  | none =>
    match st.pending_transactions.find?
        (fun tx => tx.transaction_id == transaction_id) with
    | some btx =>
        [("verified", .bool true),
         ("status", .str "pending"),
         ("blockchain_tx_id", .str btx.id),
         ("position_in_queue",
          .int ((pyListIndex btx st.pending_transactions : Int) + 1))]
    | none =>
        [("verified", .bool false),
         ("status", .str "not_found"),
         ("message", .str "Transaction not found on blockchain")]

/-- Body of the chain-validation loop, reporting the index of the first
block that fails either the recomputed-hash check or the
previous-hash-link check (the index the source logs before returning
`False`). -/
def firstInvalidFrom (H : HashInput → String) (i : Nat) (prev : Block) :
    List Block → Option Nat
  | [] => none
  | b :: rest =>
      if b.hash ≠ calculateHash H b then some i
      else if b.previous_hash ≠ prev.hash then some i
      else firstInvalidFrom H (i + 1) b rest

/-- Index of the first invalid block of a chain, if any. -/
def firstInvalidIndex (H : HashInput → String) (c : List Block) :
    Option Nat :=
  match c with
  | [] => none
  | g :: rest => firstInvalidFrom H 1 g rest

/-- Body of `validate_chain` as a boolean (identical loop, `False` at
the first violation). -/
def validateFrom (H : HashInput → String) (prev : Block) :
    List Block → Bool
  | [] => true
  | b :: rest =>
      if b.hash ≠ calculateHash H b then false
      else if b.previous_hash ≠ prev.hash then false
      else validateFrom H b rest

/-- Embedding of `validate_chain`. -/
def validate_chain (H : HashInput → String) (c : List Block) : Bool :=
  match c with
  | [] => true
  | g :: rest => validateFrom H g rest

/-- Extraction of a dictionary-valued payload field with an empty
default (`message.payload.get(k, {})` followed by dictionary use). -/
def payloadDictD (p : List (String × Value)) (k : String) :
    List (String × Value) :=
  match dictGet k p with
  | some (.dict d) => d
  | _ => []

/-- Embedding of the ledger's `process_message` dispatch.  The result
is `none` exactly when a triggered proof-of-work search exhausts its
fuel (models the handler never returning). -/
def blockchainProcessMessage (H : HashInput → String) (fuel : Nat)
    (newId : String) (now : Nat) (st : LedgerState) (msg : Message) :
    Option (LedgerState × List OutMsg) :=
  if msg.message_type = "blockchain_record_request" then
    let transaction_data := payloadDictD msg.payload "transaction_data"
    let r := create_blockchain_transaction newId now transaction_data st
    let response : OutMsg :=
      { recipient := msg.sender,
        message_type := "blockchain_record_response",
        payload :=
          [("transaction_id",
            (dictGet "transaction_id" transaction_data).getD .null),
           ("blockchain_tx_id", .str r.1.id),
           ("status", .str "pending"),
           ("message", .str "Transaction queued for blockchain recording")],
        correlation_id := msg.correlation_id }
    if r.2.pending_transactions.length ≥ 5 then
      match mine_pending_transactions H fuel now r.2 with
      | none => none
      | some (_, st') => some (st', [response])
    else some (r.2, [response])
  else if msg.message_type = "blockchain_verify_request" then
    let result :=
      match pyGetStr? msg.payload "transaction_id" with
      | some tid => verify_transaction st tid
      | none =>
          [("verified", .bool false),
           ("status", .str "not_found"),
           ("message", .str "Transaction not found on blockchain")]
    some (st,
      [{ recipient := msg.sender,
         message_type := "blockchain_verify_response",
         payload :=
           dictMerge
             [("transaction_id",
               (dictGet "transaction_id" msg.payload).getD .null)]
             result,
         correlation_id := msg.correlation_id }])
  else if msg.message_type = "mine_block_request" then
    match mine_pending_transactions H fuel now st with
    | none => none
    | some (none, st') => some (st', [])
    | some (some b, st') =>
        some (st',
          [{ recipient := msg.sender, message_type := "block_mined",
             payload :=
               [("block_index", .int (b.index : Int)),
                ("block_hash", .str b.hash),
                ("transactions_count", .int (b.transactions.length : Int))] }])
  else some (st, [])

/-! ## Validator agents (message boundary)

The fraud-scoring, compliance-rule and resource-quota policies are
out-of-scope pluggable modules; per the architecture they are specified
only at their message boundary.  Each handler below embeds the
`process_message` control flow of its agent from the source, with the
policy computation (`analyze_transaction`, `check_compliance`,
`allocate_resources`, `get_resource_status`) as an uninterpreted
parameter returning the result dictionary the policy produces. -/

/-- Nested dictionary access `v.get(k)` on a payload value that the
source treats as a dict (non-dicts have no `.get`; such a value would
raise in the source and cannot occur at this boundary). -/
def Value.dGet (v : Value) (k : String) : Option Value :=
  match v with
  | .dict es => dictGet k es
  | _ => none

/-- Embedding of `FraudDetectionAgent.process_message`.  The parameter
`analyze` is the result dictionary of `analyze_transaction` on the
request's `transaction_data`; the source reads its `is_fraudulent`
entry to decide whether to raise a fraud alert. -/
def fraudProcessMessage (analyze : Value → List (String × Value))
    (msg : Message) : List OutMsg :=
  if msg.message_type = "fraud_check_request" then
    let transaction_id := (dictGet "transaction_id" msg.payload).getD .null
    let transaction_data :=
      (dictGet "transaction_data" msg.payload).getD (.dict [])
    let analysis_result := analyze transaction_data
    let response : OutMsg :=
      { recipient := msg.sender, message_type := "fraud_check_response",
        payload :=
          dictMerge [("transaction_id", transaction_id)] analysis_result,
        correlation_id := msg.correlation_id }
    if ((dictGet "is_fraudulent" analysis_result).getD .null).truthy then
      [response,
       { recipient := "threat_detector", message_type := "fraud_alert",
         payload :=
           [("transaction_id", transaction_id),
            ("sender_account",
             (transaction_data.dGet "sender_account").getD .null),
            ("threat_type", .str "fraud"),
            ("risk_score",
             (dictGet "risk_score" analysis_result).getD .null),
            ("indicators",
             (dictGet "fraud_indicators" analysis_result).getD .null)] }]
    else [response]
  else []

/-- Embedding of `ComplianceAgent.process_message`, with
`check_compliance`'s result dictionary as the uninterpreted parameter
`check`. -/
def complianceProcessMessage (check : Value → List (String × Value))
    (now : Nat) (msg : Message) : List OutMsg :=
  if msg.message_type = "compliance_check_request" then
    let transaction_id := (dictGet "transaction_id" msg.payload).getD .null
    let transaction_data :=
      (dictGet "transaction_data" msg.payload).getD (.dict [])
    let compliance_result := check transaction_data
    let response : OutMsg :=
      { recipient := msg.sender,
        message_type := "compliance_check_response",
        payload :=
          dictMerge [("transaction_id", transaction_id)] compliance_result,
        correlation_id := msg.correlation_id }
    if ((dictGet "is_compliant" compliance_result).getD .null).truthy then
      [response]
    else
      [response,
       { recipient := "audit_agent", message_type := "compliance_violation",
         payload :=
           [("transaction_id", transaction_id),
            ("violations",
             (dictGet "violations" compliance_result).getD .null),
            ("sender_account",
             (transaction_data.dGet "sender_account").getD .null),
            ("amount", (transaction_data.dGet "amount").getD .null),
            ("timestamp", .int now)] }]
  else []

/-- Embedding of `ResourceAllocationAgent.process_message`.  The
parameter `alloc` is the result dictionary of `allocate_resources` on
the request's transaction id, priority and complexity; `statusDict` is
`get_resource_status()`'s result.  The `release_resources` branch sends
no messages. -/
def resourceProcessMessage
    (alloc : Value → Value → Value → List (String × Value))
    (statusDict : List (String × Value)) (now : Nat) (msg : Message) :
    List OutMsg :=
  if msg.message_type = "resource_request" then
    let transaction_id := (dictGet "transaction_id" msg.payload).getD .null
    let priority :=
      (dictGet "processing_priority" msg.payload).getD (.str "normal")
    let complexity :=
      (dictGet "estimated_complexity" msg.payload).getD (.str "low")
    let allocation_result := alloc transaction_id priority complexity
    if ((dictGet "allocated" allocation_result).getD .null).truthy then
      [{ recipient := msg.sender, message_type := "resource_allocated",
         payload :=
           dictMerge [("transaction_id", transaction_id)] allocation_result,
         correlation_id := msg.correlation_id }]
    else
      [{ recipient := msg.sender,
         message_type := "resource_allocation_failed",
         payload :=
           dictMerge [("transaction_id", transaction_id)] allocation_result,
         correlation_id := msg.correlation_id },
       { recipient := "audit_agent", message_type := "resource_shortage",
         payload :=
           [("transaction_id", transaction_id),
            ("timestamp", .int now),
            ("resource_status", .dict statusDict)] }]
  else []

/-! ## Dictionary lemmas -/

theorem dictGet_mem {α : Type u} (k : String) (v : α) (d : List (String × α))
    (h : dictGet k d = some v) : (k, v) ∈ d := by
  induction d with
  | nil => simp [dictGet] at h
  | cons q rest ih =>
      obtain ⟨a, b⟩ := q
      by_cases ha : a = k
      · subst ha
        have hb : b = v := by simpa [dictGet] using h
        subst hb
        exact List.mem_cons_self _ _
      · simp only [dictGet, if_neg ha] at h
        exact List.mem_cons_of_mem _ (ih h)

theorem dictGet_eq_none_iff {α : Type u} (k : String) (d : List (String × α)) :
    dictGet k d = none ↔ k ∉ dictKeys d := by
  induction d with
  | nil => simp [dictGet, dictKeys]
  | cons q rest ih =>
      obtain ⟨a, b⟩ := q
      by_cases ha : a = k
      · subst ha; simp [dictGet, dictKeys]
      · simp only [dictGet, if_neg ha, dictKeys, List.map_cons, List.mem_cons]
        rw [ih]
        constructor
        · intro h hk
          rcases hk with hk | hk
          · exact ha hk.symm
          · exact h hk
        · intro h hk
          exact h (Or.inr hk)

theorem dictContains_iff_mem_keys {α : Type u} (k : String)
    (d : List (String × α)) : dictContains k d = true ↔ k ∈ dictKeys d := by
  rw [dictContains]
  rcases h : dictGet k d with _ | v
  · simp only [Option.isSome_none, Bool.false_eq_true, false_iff]
    exact (dictGet_eq_none_iff k d).1 h
  · simp only [Option.isSome_some, true_iff]
    exact List.mem_map_of_mem Prod.fst (dictGet_mem k v d h)

theorem dictGet_insert_self {α : Type u} (k : String) (v : α)
    (d : List (String × α)) : dictGet k (dictInsert k v d) = some v := by
  induction d with
  | nil => simp [dictInsert, dictGet]
  | cons q rest ih =>
      obtain ⟨a, b⟩ := q
      by_cases ha : a = k
      · subst ha; simp [dictInsert, dictGet]
      · simp [dictInsert, dictGet, ha, ih]

theorem dictGet_insert_ne {α : Type u} (k' k : String) (h : k' ≠ k) (v : α)
    (d : List (String × α)) :
    dictGet k' (dictInsert k v d) = dictGet k' d := by
  have hk : k ≠ k' := Ne.symm h
  induction d with
  | nil => simp [dictInsert, dictGet, hk]
  | cons q rest ih =>
      obtain ⟨a, b⟩ := q
      by_cases ha : a = k
      · subst ha; simp [dictInsert, dictGet, hk]
      · simp [dictInsert, dictGet, ha, ih]

theorem dictGet_pop_ne {α : Type u} (k' k : String) (h : k' ≠ k)
    (d : List (String × α)) :
    dictGet k' (dictPop k d) = dictGet k' d := by
  have hk : k ≠ k' := Ne.symm h
  induction d with
  | nil => simp [dictPop]
  | cons q rest ih =>
      obtain ⟨a, b⟩ := q
      by_cases ha : a = k
      · subst ha; simp [dictPop, dictGet, hk]
      · simp [dictPop, dictGet, ha, ih]

theorem dictGet_pop_self {α : Type u} (k : String) (d : List (String × α))
    (hd : (dictKeys d).Nodup) : dictGet k (dictPop k d) = none := by
  induction d with
  | nil => simp [dictPop, dictGet]
  | cons q rest ih =>
      obtain ⟨a, b⟩ := q
      simp only [dictKeys, List.map_cons, List.nodup_cons] at hd
      by_cases ha : a = k
      · subst ha
        simp only [dictPop, if_pos rfl]
        exact (dictGet_eq_none_iff a rest).2 hd.1
      · simp only [dictPop, if_neg ha, dictGet, ha, if_false]
        exact ih hd.2

theorem keys_dictInsert {α : Type u} (k : String) (v : α)
    (d : List (String × α)) :
    dictKeys (dictInsert k v d) =
      if dictContains k d then dictKeys d else dictKeys d ++ [k] := by
  induction d with
  | nil => simp [dictInsert, dictKeys, dictContains, dictGet]
  | cons q rest ih =>
      obtain ⟨a, b⟩ := q
      by_cases ha : a = k
      · subst ha
        simp [dictInsert, dictKeys, dictContains, dictGet]
      · have hc : dictContains k ((a, b) :: rest) = dictContains k rest := by
          simp [dictContains, dictGet, ha]
        simp only [dictInsert, if_neg ha, dictKeys, List.map_cons] at ih ⊢
        rw [ih, hc]
        by_cases h2 : dictContains k rest
        · simp [h2]
        · simp [h2]

theorem nodup_keys_dictInsert {α : Type u} (k : String) (v : α)
    (d : List (String × α)) (hd : (dictKeys d).Nodup) :
    (dictKeys (dictInsert k v d)).Nodup := by
  rw [keys_dictInsert]
  by_cases hc : dictContains k d = true
  · simpa [hc] using hd
  · rw [if_neg hc]
    refine List.Nodup.append hd (List.nodup_singleton k) ?_
    intro a ha hb
    rw [List.mem_singleton] at hb
    subst hb
    exact hc ((dictContains_iff_mem_keys a d).2 ha)

theorem keys_dictPop_sublist {α : Type u} (k : String)
    (d : List (String × α)) :
    List.Sublist (dictKeys (dictPop k d)) (dictKeys d) := by
  induction d with
  | nil => exact List.Sublist.refl _
  | cons q rest ih =>
      obtain ⟨a, b⟩ := q
      by_cases ha : a = k
      · subst ha
        simp only [dictPop, if_pos rfl, dictKeys, List.map_cons]
        exact List.Sublist.cons _ (List.Sublist.refl _)
      · simp only [dictPop, if_neg ha, dictKeys, List.map_cons]
        exact List.Sublist.cons₂ _ ih

theorem nodup_keys_dictPop {α : Type u} (k : String) (d : List (String × α))
    (hd : (dictKeys d).Nodup) : (dictKeys (dictPop k d)).Nodup :=
  (keys_dictPop_sublist k d).nodup hd

theorem mem_dictInsert_elim {α : Type u} (k : String) (v : α)
    (d : List (String × α)) (p : String × α)
    (h : p ∈ dictInsert k v d) : p = (k, v) ∨ p ∈ d := by
  induction d with
  | nil =>
      simp only [dictInsert, List.mem_singleton] at h
      exact Or.inl h
  | cons q rest ih =>
      obtain ⟨a, b⟩ := q
      by_cases ha : a = k
      · subst ha
        simp only [dictInsert, eq_self_iff_true, if_true, List.mem_cons] at h
        rcases h with h | h
        · exact Or.inl h
        · exact Or.inr (List.mem_cons_of_mem _ h)
      · simp only [dictInsert, if_neg ha, List.mem_cons] at h
        rcases h with h | h
        · exact Or.inr (List.mem_cons.2 (Or.inl h))
        · rcases ih h with h' | h'
          · exact Or.inl h'
          · exact Or.inr (List.mem_cons_of_mem _ h')

theorem mem_dictPop_elim {α : Type u} (k : String) (d : List (String × α))
    (p : String × α) (h : p ∈ dictPop k d) : p ∈ d := by
  induction d with
  | nil => simp [dictPop] at h
  | cons q rest ih =>
      obtain ⟨a, b⟩ := q
      by_cases ha : a = k
      · subst ha
        simp only [dictPop, eq_self_iff_true, if_true] at h
        exact List.mem_cons_of_mem _ h
      · simp only [dictPop, if_neg ha, List.mem_cons] at h
        rcases h with h | h
        · simp [h]
        · exact List.mem_cons_of_mem _ (ih h)

theorem dictContains_pop_self {α : Type u} (k : String)
    (d : List (String × α)) (hd : (dictKeys d).Nodup) :
    dictContains k (dictPop k d) = false := by
  simp [dictContains, dictGet_pop_self k d hd]

theorem bool_eq_false_of_not {b : Bool} (h : ¬ b = true) : b = false := by
  cases b
  · rfl
  · exact absurd rfl h

theorem mem_keys_dictInsert {α : Type u} (a k : String) (v : α)
    (d : List (String × α)) :
    a ∈ dictKeys (dictInsert k v d) ↔ a = k ∨ a ∈ dictKeys d := by
  rw [keys_dictInsert]
  by_cases hc : dictContains k d = true
  · rw [if_pos hc]
    constructor
    · exact Or.inr
    · rintro (rfl | h)
      · exact (dictContains_iff_mem_keys a d).1 hc
      · exact h
  · rw [if_neg hc]
    simp only [List.mem_append, List.mem_singleton]
    tauto

theorem dictContains_insert_iff {α : Type u} (k' k : String) (v : α)
    (d : List (String × α)) :
    dictContains k' (dictInsert k v d) = true ↔
      k' = k ∨ dictContains k' d = true := by
  rw [dictContains_iff_mem_keys, mem_keys_dictInsert,
    dictContains_iff_mem_keys]

theorem dictContains_of_pop {α : Type u} (k' k : String)
    (d : List (String × α)) (h : dictContains k' (dictPop k d) = true) :
    dictContains k' d = true := by
  rw [dictContains_iff_mem_keys] at h ⊢
  exact (keys_dictPop_sublist k d).subset h

/-! ## Coordinator invariant and reachable states -/

/-- Key-uniqueness, mutual-exclusivity and status invariant of the
coordinator's three transaction dictionaries. -/
structure TPAInv (st : TPAState) : Prop where
  np : (dictKeys st.pending_transactions).Nodup
  nc : (dictKeys st.completed_transactions).Nodup
  nf : (dictKeys st.failed_transactions).Nodup
  pc : ∀ k, dictContains k st.pending_transactions = true →
      dictContains k st.completed_transactions = false
  pf : ∀ k, dictContains k st.pending_transactions = true →
      dictContains k st.failed_transactions = false
  cf : ∀ k, dictContains k st.completed_transactions = true →
      dictContains k st.failed_transactions = false
  cs : ∀ p ∈ st.completed_transactions,
      (p : String × Transaction).2.status = "completed"
  fs : ∀ p ∈ st.failed_transactions,
      (p : String × Transaction).2.status = "failed"

/-- Coordinator states reachable by the agent's operations.  The
freshness hypotheses on `create` model the uniqueness of `uuid4`
identifiers, which the source relies on. -/
inductive TPAReachable : TPAState → Prop where
  | init : TPAReachable tpaInit
  | create (st : TPAState) (newId : String) (now : Nat) (amount : Int)
      (sa ra cur : String) (md : List (String × Value)) :
      TPAReachable st →
      dictContains newId st.pending_transactions = false →
      dictContains newId st.completed_transactions = false →
      dictContains newId st.failed_transactions = false →
      TPAReachable (create_transaction st newId now amount sa ra cur md).2
  | complete (st : TPAState) (tid : String) : TPAReachable st →
      TPAReachable (complete_transaction st tid).2.1
  | fail (st : TPAState) (now : Nat) (tid reason : String) :
      TPAReachable st → TPAReachable (fail_transaction st now tid reason).2.1
  | handle (st : TPAState) (now : Nat) (msg : Message) : TPAReachable st →
      TPAReachable (tpaProcessMessage st now msg).1

theorem tpaInv_init : TPAInv tpaInit := by
  constructor <;> simp [tpaInit, dictKeys, dictContains, dictGet]

theorem tpaInv_create (st : TPAState) (newId : String) (now : Nat)
    (amount : Int) (sa ra cur : String) (md : List (String × Value))
    (hinv : TPAInv st)
    (h1 : dictContains newId st.pending_transactions = false)
    (h2 : dictContains newId st.completed_transactions = false)
    (h3 : dictContains newId st.failed_transactions = false) :
    TPAInv (create_transaction st newId now amount sa ra cur md).2 := by
  refine ⟨?_, hinv.nc, hinv.nf, ?_, ?_, hinv.cf, hinv.cs, hinv.fs⟩
  · exact nodup_keys_dictInsert _ _ _ hinv.np
  · intro k hk
    rcases (dictContains_insert_iff k newId _ _).1 hk with rfl | hk'
    · exact h2
    · exact hinv.pc k hk'
  · intro k hk
    rcases (dictContains_insert_iff k newId _ _).1 hk with rfl | hk'
    · exact h3
    · exact hinv.pf k hk'

theorem tpaInv_complete (st : TPAState) (tid : String) (hinv : TPAInv st) :
    TPAInv (complete_transaction st tid).2.1 := by
  rcases hget : dictGet tid st.pending_transactions with _ | tx
  · simpa [complete_transaction, hget] using hinv
  · have hpend : dictContains tid st.pending_transactions = true := by
      simp [dictContains, hget]
    simp only [complete_transaction, hget]
    refine ⟨?_, ?_, hinv.nf, ?_, ?_, ?_, ?_, hinv.fs⟩
    · exact nodup_keys_dictPop _ _ hinv.np
    · exact nodup_keys_dictInsert _ _ _ hinv.nc
    · intro k hk
      have hk' : dictContains k st.pending_transactions = true :=
        dictContains_of_pop k tid _ hk
      have hkt : k ≠ tid := by
        rintro rfl
        rw [dictContains_pop_self k _ hinv.np] at hk
        exact Bool.false_ne_true hk
      apply bool_eq_false_of_not
      intro hc
      rcases (dictContains_insert_iff k tid _ _).1 hc with rfl | hc'
      · exact hkt rfl
      · exact Bool.false_ne_true ((hinv.pc k hk').symm.trans hc')
    · intro k hk
      exact hinv.pf k (dictContains_of_pop k tid _ hk)
    · intro k hk
      rcases (dictContains_insert_iff k tid _ _).1 hk with rfl | hk'
      · exact hinv.pf k hpend
      · exact hinv.cf k hk'
    · intro p hp
      rcases mem_dictInsert_elim _ _ _ _ hp with rfl | hp'
      · rfl
      · exact hinv.cs p hp'

theorem tpaInv_fail (st : TPAState) (now : Nat) (tid reason : String)
    (hinv : TPAInv st) : TPAInv (fail_transaction st now tid reason).2.1 := by
  rcases hget : dictGet tid st.pending_transactions with _ | tx
  · simpa [fail_transaction, hget] using hinv
  · have hpend : dictContains tid st.pending_transactions = true := by
      simp [dictContains, hget]
    simp only [fail_transaction, hget]
    refine ⟨?_, hinv.nc, ?_, ?_, ?_, ?_, hinv.cs, ?_⟩
    · exact nodup_keys_dictPop _ _ hinv.np
    · exact nodup_keys_dictInsert _ _ _ hinv.nf
    · intro k hk
      exact hinv.pc k (dictContains_of_pop k tid _ hk)
    · intro k hk
      have hk' : dictContains k st.pending_transactions = true :=
        dictContains_of_pop k tid _ hk
      have hkt : k ≠ tid := by
        rintro rfl
        rw [dictContains_pop_self k _ hinv.np] at hk
        exact Bool.false_ne_true hk
      apply bool_eq_false_of_not
      intro hc
      rcases (dictContains_insert_iff k tid _ _).1 hc with rfl | hc'
      · exact hkt rfl
      · exact Bool.false_ne_true ((hinv.pf k hk').symm.trans hc')
    · intro k hk
      apply bool_eq_false_of_not
      intro hc
      rcases (dictContains_insert_iff k tid _ _).1 hc with rfl | hc'
      · exact Bool.false_ne_true ((hinv.pc k hpend).symm.trans hk)
      · exact Bool.false_ne_true ((hinv.cf k hk).symm.trans hc')
    · intro p hp
      rcases mem_dictInsert_elim _ _ _ _ hp with rfl | hp'
      · rfl
      · exact hinv.fs p hp'

theorem tpaInv_handleFraud (st : TPAState) (now : Nat) (msg : Message)
    (hinv : TPAInv st) : TPAInv (handleFraudResponse st now msg).1 := by
  unfold handleFraudResponse
  cases hf : pyGetTruthyD msg.payload "is_fraudulent" false
  · simpa using hinv
  · rcases htid : pyGetStr? msg.payload "transaction_id" with _ | tid
    · simpa [htid] using hinv
    · simpa [htid] using tpaInv_fail st now tid _ hinv

theorem tpaInv_handleCompliance (st : TPAState) (now : Nat) (msg : Message)
    (hinv : TPAInv st) : TPAInv (handleComplianceResponse st now msg).1 := by
  unfold handleComplianceResponse
  cases hf : pyGetTruthyD msg.payload "is_compliant" true
  · rcases htid : pyGetStr? msg.payload "transaction_id" with _ | tid
    · simpa [htid] using hinv
    · simpa [htid] using tpaInv_fail st now tid _ hinv
  · simpa using hinv

theorem tpaInv_handleResource (st : TPAState) (msg : Message)
    (hinv : TPAInv st) : TPAInv (handleResourceAllocation st msg).1 := by
  unfold handleResourceAllocation
  rcases htid : pyGetStr? msg.payload "transaction_id" with _ | tid
  · simpa [htid] using hinv
  · cases hc : dictContains tid st.pending_transactions
    · simpa [htid, hc] using hinv
    · simpa [htid, hc] using tpaInv_complete st tid hinv

theorem tpaInv_handle (st : TPAState) (now : Nat) (msg : Message)
    (hinv : TPAInv st) : TPAInv (tpaProcessMessage st now msg).1 := by
  unfold tpaProcessMessage
  by_cases h1 : msg.message_type = "fraud_check_response"
  · simpa [h1] using tpaInv_handleFraud st now msg hinv
  · by_cases h2 : msg.message_type = "compliance_check_response"
    · simpa [h1, h2] using tpaInv_handleCompliance st now msg hinv
    · by_cases h3 : msg.message_type = "resource_allocated"
      · simpa [h1, h2, h3] using tpaInv_handleResource st msg hinv
      · simpa [h1, h2, h3] using hinv

/-- Every reachable coordinator state satisfies the invariant. -/
theorem tpa_inv (st : TPAState) (h : TPAReachable st) : TPAInv st := by
  induction h with
  | init => exact tpaInv_init
  | create st newId now amount sa ra cur md _ h1 h2 h3 ih =>
      exact tpaInv_create st newId now amount sa ra cur md ih h1 h2 h3
  | complete st tid _ ih => exact tpaInv_complete st tid ih
  | fail st now tid reason _ ih => exact tpaInv_fail st now tid reason ih
  | handle st now msg _ ih => exact tpaInv_handle st now msg ih

/-! ## Claims about the coordinator -/

theorem dictGet_of_contains {α : Type u} (k : String) (d : List (String × α))
    (h : dictContains k d = true) : ∃ v, dictGet k d = some v := by
  rcases hg : dictGet k d with _ | v
  · rw [dictContains, hg] at h
    simp at h
  · exact ⟨v, rfl⟩

theorem dictGet_none_of_not_contains {α : Type u} (k : String)
    (d : List (String × α)) (h : dictContains k d = false) :
    dictGet k d = none := by
  rcases hg : dictGet k d with _ | v
  · rfl
  · rw [dictContains, hg] at h
    simp at h

/-- Dispatch of the coordinator on a `resource_allocated` message. -/
theorem tpaProcessMessage_resource (st : TPAState) (now : Nat)
    (msg : Message) (h : msg.message_type = "resource_allocated") :
    tpaProcessMessage st now msg = handleResourceAllocation st msg := by
  unfold tpaProcessMessage
  rw [if_neg (by rw [h]; decide), if_neg (by rw [h]; decide), if_pos h]

/-- Dispatch of the coordinator on a `fraud_check_response` message. -/
theorem tpaProcessMessage_fraud (st : TPAState) (now : Nat)
    (msg : Message) (h : msg.message_type = "fraud_check_response") :
    tpaProcessMessage st now msg = handleFraudResponse st now msg := by
  unfold tpaProcessMessage
  rw [if_pos h]

/-- Dispatch of the coordinator on a `compliance_check_response`
message. -/
theorem tpaProcessMessage_compliance (st : TPAState) (now : Nat)
    (msg : Message) (h : msg.message_type = "compliance_check_response") :
    tpaProcessMessage st now msg = handleComplianceResponse st now msg := by
  unfold tpaProcessMessage
  rw [if_neg (by rw [h]; decide), if_pos h]

/-- C1: for a transaction in the coordinator's pending set, a delivered
`resource_allocated` response moves it to status Completed; any
`fraud_check_response` with a truthy `is_fraudulent` or
`compliance_check_response` with a falsy `is_compliant` delivered for
it afterwards leaves the state entirely unchanged (and the underlying
`fail_transaction` call returns false and mutates nothing). -/
theorem claim_C1 (st st1 : TPAState) (outs1 : List OutMsg) (txid : String)
    (now1 : Nat) (msg1 : Message) (hreach : TPAReachable st)
    (hpend : dictContains txid st.pending_transactions = true)
    (htype1 : msg1.message_type = "resource_allocated")
    (htid1 : dictGet "transaction_id" msg1.payload = some (.str txid))
    (hstep : tpaProcessMessage st now1 msg1 = (st1, outs1)) :
    (∃ tx, dictGet txid st1.completed_transactions = some tx ∧
        tx.status = "completed") ∧
    dictContains txid st1.pending_transactions = false ∧
    (∀ now2 msg2, msg2.message_type = "fraud_check_response" →
        dictGet "transaction_id" msg2.payload = some (.str txid) →
        pyGetTruthyD msg2.payload "is_fraudulent" false = true →
        tpaProcessMessage st1 now2 msg2 = (st1, [])) ∧
    (∀ now2 msg2, msg2.message_type = "compliance_check_response" →
        dictGet "transaction_id" msg2.payload = some (.str txid) →
        pyGetTruthyD msg2.payload "is_compliant" true = false →
        tpaProcessMessage st1 now2 msg2 = (st1, [])) ∧
    (∀ now2 reason, fail_transaction st1 now2 txid reason = (false, st1, [])) := by
  obtain ⟨tx, hget⟩ := dictGet_of_contains txid _ hpend
  have hnp := (tpa_inv st hreach).np
  have hres : handleResourceAllocation st msg1 =
      ({ st with
          pending_transactions := dictPop txid st.pending_transactions,
          completed_transactions :=
            dictInsert txid { tx with status := "completed" }
              st.completed_transactions },
       [{ recipient := "audit_agent", message_type := "transaction_completed",
          payload :=
            [("transaction_id", .str txid), ("amount", .int tx.amount),
             ("timestamp", .int tx.timestamp)] }]) := by
    unfold handleResourceAllocation
    rw [show pyGetStr? msg1.payload "transaction_id" = some txid by
      simp [pyGetStr?, htid1]]
    simp only [hpend, if_true]
    simp [complete_transaction, hget]
  rw [tpaProcessMessage_resource st now1 msg1 htype1, hres] at hstep
  simp only [Prod.mk.injEq] at hstep
  obtain ⟨hst1, -⟩ := hstep
  subst hst1
  have hpend1 : dictGet txid (dictPop txid st.pending_transactions) = none :=
    dictGet_pop_self txid _ hnp
  refine ⟨⟨{ tx with status := "completed" }, ?_, rfl⟩, ?_, ?_, ?_, ?_⟩
  · exact dictGet_insert_self txid _ _
  · simp [dictContains, hpend1]
  · intro now2 msg2 ht2 htid2 hfraud2
    rw [tpaProcessMessage_fraud _ now2 msg2 ht2]
    unfold handleFraudResponse
    rw [if_pos hfraud2]
    rw [show pyGetStr? msg2.payload "transaction_id" = some txid by
      simp [pyGetStr?, htid2]]
    simp [fail_transaction, hpend1]
  · intro now2 msg2 ht2 htid2 hcomp2
    rw [tpaProcessMessage_compliance _ now2 msg2 ht2]
    unfold handleComplianceResponse
    rw [if_neg (by rw [hcomp2]; decide)]
    rw [show pyGetStr? msg2.payload "transaction_id" = some txid by
      simp [pyGetStr?, htid2]]
    simp [fail_transaction, hpend1]
  · intro now2 reason
    simp [fail_transaction, hpend1]

/-- Sample coordinator state: one pending transaction with id t1. -/
def tpaDemoState : TPAState :=
  (create_transaction tpaInit "t1" 0 100 "acct_a" "acct_b" "USD" []).2

/-- Sample `resource_allocated` response for t1. -/
def resourceAllocatedMsg : Message :=
  { id := "m1", sender := "resource_allocator",
    recipient := "transaction_processor",
    message_type := "resource_allocated",
    payload := [("transaction_id", .str "t1")], timestamp := 0,
    correlation_id := some "t1" }

/-- Sample coordinator state after completing t1. -/
def tpaCompletedState : TPAState := (complete_transaction tpaDemoState "t1").2.1

/-- Completed form of the sample transaction t1. -/
def txRecordT1 : Transaction :=
  { id := "t1", amount := 100, sender_account := "acct_a",
    recipient_account := "acct_b", currency := "USD", timestamp := 0,
    status := "completed", metadata := [] }

theorem tpaDemoReachable : TPAReachable tpaDemoState :=
  TPAReachable.create tpaInit "t1" 0 100 "acct_a" "acct_b" "USD" []
    TPAReachable.init rfl rfl rfl

theorem tpaCompletedReachable : TPAReachable tpaCompletedState :=
  TPAReachable.complete tpaDemoState "t1" tpaDemoReachable

/-- Witness for C1: the concrete one-transaction saga, with the
resource-allocation response delivered first. -/
theorem claim_C1_witness :
    (∃ tx, dictGet "t1"
        ((tpaProcessMessage tpaDemoState 0 resourceAllocatedMsg).1).completed_transactions
        = some tx ∧ tx.status = "completed") ∧
    dictContains "t1"
        ((tpaProcessMessage tpaDemoState 0 resourceAllocatedMsg).1).pending_transactions
      = false := by
  have h := claim_C1 tpaDemoState
      (tpaProcessMessage tpaDemoState 0 resourceAllocatedMsg).1
      (tpaProcessMessage tpaDemoState 0 resourceAllocatedMsg).2
      "t1" 0 resourceAllocatedMsg tpaDemoReachable rfl rfl rfl rfl
  exact ⟨h.1, h.2.1⟩

/-- C2: for an id not in the pending set (such as one already
completed or failed), `complete_transaction` and `fail_transaction`
return false and change nothing, and `get_transaction_status` never
reports status pending for it. -/
theorem claim_C2 (st : TPAState) (txid : String)
    (hreach : TPAReachable st)
    (habs : dictContains txid st.pending_transactions = false) :
    complete_transaction st txid = (false, st, []) ∧
    (∀ now reason, fail_transaction st now txid reason = (false, st, [])) ∧
    (∀ snap, get_transaction_status st txid = some snap →
        snap.status ≠ "pending") := by
  have hget : dictGet txid st.pending_transactions = none :=
    dictGet_none_of_not_contains txid _ habs
  have hinv := tpa_inv st hreach
  refine ⟨by simp [complete_transaction, hget],
    fun now reason => by simp [fail_transaction, hget], ?_⟩
  intro snap hsnap
  simp only [get_transaction_status, hget] at hsnap
  rcases hc : dictGet txid st.completed_transactions with _ | tx
  · rw [hc] at hsnap
    rcases hf : dictGet txid st.failed_transactions with _ | tx
    · rw [hf] at hsnap
      exact absurd hsnap (by simp)
    · rw [hf] at hsnap
      have hs : snap = snapshotOf tx := by
        simpa using hsnap.symm
      subst hs
      have hst : tx.status = "failed" :=
        hinv.fs (txid, tx) (dictGet_mem _ _ _ hf)
      simp [snapshotOf, hst]
  · rw [hc] at hsnap
    have hs : snap = snapshotOf tx := by
      simpa using hsnap.symm
    subst hs
    have hst : tx.status = "completed" :=
      hinv.cs (txid, tx) (dictGet_mem _ _ _ hc)
    simp [snapshotOf, hst]

/-- Witness for C2: t1 is already completed; repeated terminal calls
are no-ops and the reported status is "completed". -/
theorem claim_C2_witness :
    complete_transaction tpaCompletedState "t1" = (false, tpaCompletedState, []) ∧
    fail_transaction tpaCompletedState 5 "t1" "late failure" =
      (false, tpaCompletedState, []) ∧
    (snapshotOf txRecordT1).status ≠ "pending" := by
  have h := claim_C2 tpaCompletedState "t1" tpaCompletedReachable rfl
  exact ⟨h.1, h.2.1 5 "late failure", h.2.2 (snapshotOf txRecordT1) rfl⟩

/-- C9: in every reachable coordinator state a transaction id is in at
most one of the pending, completed and failed sets, and
`get_transaction_status` returns the snapshot from whichever set holds
the id, or `none` when absent from all three. -/
theorem claim_C9 (st : TPAState) (txid : String) (hreach : TPAReachable st) :
    (¬ (dictContains txid st.pending_transactions = true ∧
        dictContains txid st.completed_transactions = true) ∧
     ¬ (dictContains txid st.pending_transactions = true ∧
        dictContains txid st.failed_transactions = true) ∧
     ¬ (dictContains txid st.completed_transactions = true ∧
        dictContains txid st.failed_transactions = true)) ∧
    (get_transaction_status st txid = none ↔
      (dictContains txid st.pending_transactions = false ∧
       dictContains txid st.completed_transactions = false ∧
       dictContains txid st.failed_transactions = false)) ∧
    (∀ tx, dictGet txid st.pending_transactions = some tx →
      get_transaction_status st txid = some (snapshotOf tx)) ∧
    (∀ tx, dictGet txid st.pending_transactions = none →
      dictGet txid st.completed_transactions = some tx →
      get_transaction_status st txid = some (snapshotOf tx)) ∧
    (∀ tx, dictGet txid st.pending_transactions = none →
      dictGet txid st.completed_transactions = none →
      dictGet txid st.failed_transactions = some tx →
      get_transaction_status st txid = some (snapshotOf tx)) := by
  have hinv := tpa_inv st hreach
  refine ⟨⟨?_, ?_, ?_⟩, ?_, ?_, ?_, ?_⟩
  · rintro ⟨h1, h2⟩
    exact Bool.false_ne_true ((hinv.pc txid h1).symm.trans h2)
  · rintro ⟨h1, h2⟩
    exact Bool.false_ne_true ((hinv.pf txid h1).symm.trans h2)
  · rintro ⟨h1, h2⟩
    exact Bool.false_ne_true ((hinv.cf txid h1).symm.trans h2)
  · rcases hp : dictGet txid st.pending_transactions with _ | tx
    · rcases hc : dictGet txid st.completed_transactions with _ | tx
      · rcases hf : dictGet txid st.failed_transactions with _ | tx
        · simp [get_transaction_status, hp, hc, hf, dictContains]
        · simp [get_transaction_status, hp, hc, hf, dictContains]
      · simp [get_transaction_status, hp, hc, dictContains]
    · simp [get_transaction_status, hp, dictContains]
  · intro tx hp
    simp [get_transaction_status, hp]
  · intro tx hp hc
    simp [get_transaction_status, hp, hc]
  · intro tx hp hc hf
    simp [get_transaction_status, hp, hc, hf]

/-- Witness for C9 at the completed demo state. -/
theorem claim_C9_witness :
    ¬ (dictContains "t1" tpaCompletedState.pending_transactions = true ∧
       dictContains "t1" tpaCompletedState.completed_transactions = true) ∧
    get_transaction_status tpaCompletedState "t1" =
      some (snapshotOf txRecordT1) := by
  have h := claim_C9 tpaCompletedState "t1" tpaCompletedReachable
  exact ⟨h.1.1, h.2.2.2.1 txRecordT1 rfl rfl⟩

/-! ## Claims about the bus and the saga correlation ids -/

/-- C8: a send to an unregistered recipient still constructs the
message, appends it to the history (append-only, in send order) and
returns it, but invokes no receive hook; the participant directory is
unchanged and no error is raised (the function is total). -/
theorem claim_C8 (bus : BusState) (newId : String) (now : Nat)
    (sender recipient mtype : String) (payload : List (String × Value))
    (corr : Option String)
    (h : bus.agents.contains recipient = false) :
    bus_send_message bus newId now sender recipient mtype payload corr =
      ({ id := newId, sender := sender, recipient := recipient,
         message_type := mtype, payload := payload, timestamp := now,
         correlation_id := corr },
       { message_history := bus.message_history ++
           [{ id := newId, sender := sender, recipient := recipient,
              message_type := mtype, payload := payload, timestamp := now,
              correlation_id := corr }],
         agents := bus.agents },
       false) := by
  simp only [bus_send_message]
  rw [h]

/-- Witness for C8: the fraud detector is not yet registered, so the
message is recorded but not delivered. -/
theorem claim_C8_witness :
    bus_send_message (busRegister busInit "transaction_processor") "m1" 3
        "transaction_processor" "fraud_detector" "fraud_check_request"
        [] none =
      ({ id := "m1", sender := "transaction_processor",
         recipient := "fraud_detector",
         message_type := "fraud_check_request", payload := [],
         timestamp := 3, correlation_id := none },
       { message_history :=
           [{ id := "m1", sender := "transaction_processor",
              recipient := "fraud_detector",
              message_type := "fraud_check_request", payload := [],
              timestamp := 3, correlation_id := none }],
         agents := ["transaction_processor"] },
       false) :=
  claim_C8 (busRegister busInit "transaction_processor") "m1" 3
    "transaction_processor" "fraud_detector" "fraud_check_request" [] none rfl

/-- C7: the saga fan-out tags all three request messages with the
transaction id as correlation id, and each validator's response message
(fraud, compliance, resource success or failure) carries the
correlation id of the request that triggered it — hence, composed with
the first conjunct, the originating transaction's id. -/
theorem claim_C7 :
    (∀ tx : Transaction, ∀ o ∈ (process_transaction tx).2,
        o.correlation_id = some tx.id) ∧
    (∀ analyze msg, msg.message_type = "fraud_check_request" →
      ∀ o ∈ fraudProcessMessage analyze msg,
        o.message_type = "fraud_check_response" →
        o.correlation_id = msg.correlation_id) ∧
    (∀ check now msg, msg.message_type = "compliance_check_request" →
      ∀ o ∈ complianceProcessMessage check now msg,
        o.message_type = "compliance_check_response" →
        o.correlation_id = msg.correlation_id) ∧
    (∀ alloc statusDict now msg, msg.message_type = "resource_request" →
      ∀ o ∈ resourceProcessMessage alloc statusDict now msg,
        (o.message_type = "resource_allocated" ∨
         o.message_type = "resource_allocation_failed") →
        o.correlation_id = msg.correlation_id) := by
  refine ⟨?_, ?_, ?_, ?_⟩
  · intro tx o ho
    simp only [process_transaction, List.mem_cons, List.mem_singleton,
      List.not_mem_nil, or_false] at ho
    rcases ho with rfl | rfl | rfl <;> rfl
  · intro analyze msg htype o ho hresp
    simp only [fraudProcessMessage, if_pos htype] at ho
    by_cases hf :
        ((dictGet "is_fraudulent"
          (analyze ((dictGet "transaction_data" msg.payload).getD
            (.dict [])))).getD .null).truthy = true
    · rw [if_pos hf] at ho
      simp only [List.mem_cons, List.mem_singleton, List.not_mem_nil,
        or_false] at ho
      rcases ho with rfl | rfl
      · rfl
      · simp at hresp
    · rw [if_neg hf] at ho
      simp only [List.mem_singleton] at ho
      subst ho
      rfl
  · intro check now msg htype o ho hresp
    simp only [complianceProcessMessage, if_pos htype] at ho
    by_cases hf :
        ((dictGet "is_compliant"
          (check ((dictGet "transaction_data" msg.payload).getD
            (.dict [])))).getD .null).truthy = true
    · rw [if_pos hf] at ho
      simp only [List.mem_singleton] at ho
      subst ho
      rfl
    · rw [if_neg hf] at ho
      simp only [List.mem_cons, List.mem_singleton, List.not_mem_nil,
        or_false] at ho
      rcases ho with rfl | rfl
      · rfl
      · simp at hresp
  · intro alloc statusDict now msg htype o ho hresp
    simp only [resourceProcessMessage, if_pos htype] at ho
    by_cases hf :
        ((dictGet "allocated"
          (alloc ((dictGet "transaction_id" msg.payload).getD .null)
            ((dictGet "processing_priority" msg.payload).getD (.str "normal"))
            ((dictGet "estimated_complexity" msg.payload).getD
              (.str "low")))).getD .null).truthy = true
    · rw [if_pos hf] at ho
      simp only [List.mem_singleton] at ho
      subst ho
      rfl
    · rw [if_neg hf] at ho
      simp only [List.mem_cons, List.mem_singleton, List.not_mem_nil,
        or_false] at ho
      rcases ho with rfl | rfl
      · rfl
      · rcases hresp with hresp | hresp <;> simp at hresp

/-- Sample transaction for the fan-out witness. -/
def txDemoTx : Transaction :=
  { id := "t1", amount := 100, sender_account := "acct_a",
    recipient_account := "acct_b", currency := "USD", timestamp := 0 }

/-- Sample fraud-check request correlated to t1. -/
def fraudReqDemo : Message :=
  { id := "m2", sender := "transaction_processor",
    recipient := "fraud_detector",
    message_type := "fraud_check_request",
    payload := [("transaction_id", .str "t1")], timestamp := 1,
    correlation_id := some "t1" }

/-- Sample fraud-analysis result: not fraudulent. -/
def analyzeDemo : Value → List (String × Value) := fun _ =>
  [("is_fraudulent", .bool false), ("risk_score", .int 0),
   ("fraud_indicators", .list []),
   ("reason", .str "No fraud indicators detected")]

/-- First fan-out request of the sample transaction. -/
def fanoutHeadDemo : OutMsg :=
  { recipient := "fraud_detector", message_type := "fraud_check_request",
    payload :=
      [("transaction_id", .str "t1"),
       ("transaction_data", .dict
         [("amount", .int 100), ("sender_account", .str "acct_a"),
          ("recipient_account", .str "acct_b"),
          ("currency", .str "USD")])],
    correlation_id := some "t1" }

/-- Fraud response produced for the sample request. -/
def fraudRespDemo : OutMsg :=
  { recipient := "transaction_processor",
    message_type := "fraud_check_response",
    payload :=
      [("transaction_id", .str "t1"), ("is_fraudulent", .bool false),
       ("risk_score", .int 0), ("fraud_indicators", .list []),
       ("reason", .str "No fraud indicators detected")],
    correlation_id := some "t1" }

/-- Witness for C7: the first fan-out request carries t1 as correlation
id, and the fraud response to a request correlated to t1 carries the
same correlation id. -/
theorem claim_C7_witness :
    fanoutHeadDemo.correlation_id = some txDemoTx.id ∧
    fraudRespDemo.correlation_id = fraudReqDemo.correlation_id := by
  constructor
  · exact claim_C7.1 txDemoTx fanoutHeadDemo (List.Mem.head _)
  · refine claim_C7.2.1 analyzeDemo fraudReqDemo rfl fraudRespDemo ?_ rfl
    rw [show fraudProcessMessage analyzeDemo fraudReqDemo =
      [fraudRespDemo] from rfl]
    exact List.Mem.head _

/-! ## Ledger lemmas -/

theorem calculateHash_set_hash (H : HashInput → String) (b : Block)
    (s : String) : calculateHash H { b with hash := s } = calculateHash H b :=
  rfl

/-- Outcome of the proof-of-work loop: a returned block satisfies the
difficulty target, only its nonce and hash differ from the input, and
its stored hash is its own recomputed hash unless the input already
satisfied the target untouched. -/
theorem mineBlockAux_spec (H : HashInput → String) :
    ∀ (fuel : Nat) (b b' : Block), mineBlockAux H fuel b = some b' →
      pyStartsWith b'.hash powTarget = true ∧
      b'.previous_hash = b.previous_hash ∧ b'.index = b.index ∧
      b'.timestamp = b.timestamp ∧ b'.transactions = b.transactions ∧
      (b' = b ∨ b'.hash = calculateHash H b') := by
  intro fuel
  induction fuel with
  | zero =>
      intro b b' h
      simp only [mineBlockAux] at h
      by_cases hs : pyStartsWith b.hash powTarget = true
      · rw [if_pos hs] at h
        obtain rfl : b = b' := by simpa using h
        exact ⟨hs, rfl, rfl, rfl, rfl, Or.inl rfl⟩
      · rw [if_neg hs] at h
        simp at h
  | succ fuel ih =>
      intro b b' h
      simp only [mineBlockAux] at h
      by_cases hs : pyStartsWith b.hash powTarget = true
      · rw [if_pos hs] at h
        obtain rfl : b = b' := by simpa using h
        exact ⟨hs, rfl, rfl, rfl, rfl, Or.inl rfl⟩
      · rw [if_neg hs] at h
        obtain ⟨h1, h2, h3, h4, h5, h6⟩ := ih _ _ h
        refine ⟨h1, by simpa using h2, by simpa using h3, by simpa using h4,
          by simpa using h5, ?_⟩
        rcases h6 with rfl | h6
        · exact Or.inr rfl
        · exact Or.inr h6

/-- Characterization of the validation loop's boolean. -/
theorem validateFrom_iff (H : HashInput → String) :
    ∀ (bs : List Block) (prev : Block),
      validateFrom H prev bs = true ↔
      (∀ j b p, bs.get? j = some b → (prev :: bs).get? j = some p →
        b.hash = calculateHash H b ∧ b.previous_hash = p.hash) := by
  intro bs
  induction bs with
  | nil =>
      intro prev
      simp [validateFrom]
  | cons b rest ih =>
      intro prev
      simp only [validateFrom]
      by_cases h1 : b.hash = calculateHash H b
      · by_cases h2 : b.previous_hash = prev.hash
        · rw [if_neg (not_not_intro h1), if_neg (not_not_intro h2), ih b]
          constructor
          · intro hr j b' p hb hp
            cases j with
            | zero =>
                obtain rfl : b = b' := by simpa using hb
                obtain rfl : prev = p := by simpa using hp
                exact ⟨h1, h2⟩
            | succ j =>
                exact hr j b' p (by simpa using hb) (by simpa using hp)
          · intro hr j b' p hb hp
            exact hr (j + 1) b' p (by simpa using hb) (by simpa using hp)
        · rw [if_neg (not_not_intro h1), if_pos h2]
          constructor
          · intro hfalse
            exact absurd hfalse (by simp)
          · intro hr
            exact absurd (hr 0 b prev rfl rfl).2 h2
      · rw [if_pos h1]
        constructor
        · intro hfalse
          exact absurd hfalse (by simp)
        · intro hr
          exact absurd (hr 0 b prev rfl rfl).1 h1

/-- The boolean validator agrees with absence of a reported failing
index. -/
theorem validateFrom_eq_isNone (H : HashInput → String) :
    ∀ (bs : List Block) (i : Nat) (prev : Block),
      validateFrom H prev bs = (firstInvalidFrom H i prev bs).isNone := by
  intro bs
  induction bs with
  | nil => intro i prev; rfl
  | cons b rest ih =>
      intro i prev
      simp only [validateFrom, firstInvalidFrom]
      by_cases h1 : b.hash ≠ calculateHash H b
      · rw [if_pos h1, if_pos h1]
        rfl
      · rw [if_neg h1, if_neg h1]
        by_cases h2 : b.previous_hash ≠ prev.hash
        · rw [if_pos h2, if_pos h2]
          rfl
        · rw [if_neg h2, if_neg h2]
          exact ih (i + 1) b

theorem validate_chain_eq_isNone (H : HashInput → String) (c : List Block) :
    validate_chain H c = (firstInvalidIndex H c).isNone := by
  cases c with
  | nil => rfl
  | cons g rest => exact validateFrom_eq_isNone H rest 1 g

/-- Appending a block whose stored hash recomputes and whose
previous-hash link points at the tip preserves validity. -/
theorem validateFrom_append (H : HashInput → String) :
    ∀ (bs : List Block) (prev b : Block),
      validateFrom H prev bs = true →
      b.hash = calculateHash H b →
      b.previous_hash = (bs.getLastD prev).hash →
      validateFrom H prev (bs ++ [b]) = true := by
  intro bs
  induction bs with
  | nil =>
      intro prev b _ h1 h2
      have h2' : b.previous_hash = prev.hash := by simpa using h2
      simp only [List.nil_append, validateFrom]
      rw [if_neg (not_not_intro h1), if_neg (not_not_intro h2')]
  | cons x rest ih =>
      intro prev b hv h1 h2
      simp only [validateFrom, List.cons_append] at hv ⊢
      by_cases hx1 : x.hash ≠ calculateHash H x
      · rw [if_pos hx1] at hv
        exact absurd hv (by simp)
      · rw [if_neg hx1] at hv ⊢
        by_cases hx2 : x.previous_hash ≠ prev.hash
        · rw [if_pos hx2] at hv
          exact absurd hv (by simp)
        · rw [if_neg hx2] at hv ⊢
          exact ih x b hv h1 (by rwa [List.getLastD_cons] at h2)

theorem chainTipHash_cons (g : Block) (rest : List Block) :
    chainTipHash (g :: rest) = (rest.getLastD g).hash := by
  rw [chainTipHash, List.getLastD_cons]

/-- A successful mining step preserves chain validity and
nonemptiness. -/
theorem mine_preserves_valid (H : HashInput → String) (fuel now : Nat)
    (st : LedgerState) (r : Option Block) (st' : LedgerState)
    (hne : st.chain ≠ [])
    (hv : validate_chain H st.chain = true)
    (h : mine_pending_transactions H fuel now st = some (r, st')) :
    validate_chain H st'.chain = true ∧ st'.chain ≠ [] := by
  unfold mine_pending_transactions at h
  by_cases hemp : st.pending_transactions.isEmpty = true
  · rw [if_pos hemp] at h
    simp only [Option.some.injEq, Prod.mk.injEq] at h
    obtain ⟨-, hst⟩ := h
    subst hst
    exact ⟨hv, hne⟩
  · rw [if_neg hemp] at h
    simp only [] at h
    rcases hm : mineBlockAux H fuel
        { index := st.chain.length, timestamp := now,
          transactions := (st.pending_transactions.take 10).map toRecord,
          previous_hash := chainTipHash st.chain, hash := "", nonce := 0 }
      with _ | mined
    · rw [hm] at h
      simp at h
    · rw [hm] at h
      simp only [Option.some.injEq, Prod.mk.injEq] at h
      obtain ⟨-, hst⟩ := h
      subst hst
      obtain ⟨hstart, hprev, hidx, hts, htxs, hid⟩ :=
        mineBlockAux_spec H fuel _ mined hm
      rcases hid with rfl | hhash
      · have hstart' : pyStartsWith "" powTarget = true := hstart
        exact absurd hstart' (by decide)
      · refine ⟨?_, by simp⟩
        rcases hc : st.chain with _ | ⟨g, rest⟩
        · exact absurd hc hne
        · rw [hc] at hv hprev
          simp only [validate_chain] at hv ⊢
          refine validateFrom_append H rest g mined hv hhash ?_
          rw [hprev]
          exact chainTipHash_cons g rest

/-- A message-handler step of the ledger preserves chain validity and
nonemptiness. -/
theorem handle_preserves_valid (H : HashInput → String) (fuel : Nat)
    (newId : String) (now : Nat) (st st' : LedgerState) (msg : Message)
    (outs : List OutMsg)
    (hne : st.chain ≠ []) (hv : validate_chain H st.chain = true)
    (h : blockchainProcessMessage H fuel newId now st msg = some (st', outs)) :
    validate_chain H st'.chain = true ∧ st'.chain ≠ [] := by
  unfold blockchainProcessMessage at h
  by_cases h1 : msg.message_type = "blockchain_record_request"
  · rw [if_pos h1] at h
    simp only [] at h
    by_cases h5 : (create_blockchain_transaction newId now
        (payloadDictD msg.payload "transaction_data")
        st).2.pending_transactions.length ≥ 5
    · rw [if_pos h5] at h
      rcases hm : mine_pending_transactions H fuel now
          (create_blockchain_transaction newId now
            (payloadDictD msg.payload "transaction_data") st).2 with _ | p
      · rw [hm] at h
        simp at h
      · obtain ⟨rb, st''⟩ := p
        rw [hm] at h
        simp only [Option.some.injEq, Prod.mk.injEq] at h
        obtain ⟨hst, -⟩ := h
        subst hst
        exact mine_preserves_valid H fuel now
          (create_blockchain_transaction newId now
            (payloadDictD msg.payload "transaction_data") st).2
          rb st'' hne hv hm
    · rw [if_neg h5] at h
      simp only [Option.some.injEq, Prod.mk.injEq] at h
      obtain ⟨hst, -⟩ := h
      subst hst
      exact ⟨hv, hne⟩
  · rw [if_neg h1] at h
    by_cases h2 : msg.message_type = "blockchain_verify_request"
    · rw [if_pos h2] at h
      simp only [Option.some.injEq, Prod.mk.injEq] at h
      obtain ⟨hst, -⟩ := h
      subst hst
      exact ⟨hv, hne⟩
    · rw [if_neg h2] at h
      by_cases h3 : msg.message_type = "mine_block_request"
      · rw [if_pos h3] at h
        rcases hm : mine_pending_transactions H fuel now st with _ | p
        · rw [hm] at h
          simp at h
        · obtain ⟨rb, st''⟩ := p
          rw [hm] at h
          rcases rb with _ | b
          · simp only [Option.some.injEq, Prod.mk.injEq] at h
            obtain ⟨hst, -⟩ := h
            subst hst
            exact mine_preserves_valid H fuel now st none st'' hne hv hm
          · simp only [Option.some.injEq, Prod.mk.injEq] at h
            obtain ⟨hst, -⟩ := h
            subst hst
            exact mine_preserves_valid H fuel now st (some b) st'' hne hv hm
      · rw [if_neg h3] at h
        simp only [Option.some.injEq, Prod.mk.injEq] at h
        obtain ⟨hst, -⟩ := h
        subst hst
        exact ⟨hv, hne⟩

/-- Ledger states reachable by the agent's operations; the generated
uuids, instants and proof-of-work fuel are arbitrary. -/
inductive LedgerReachable (H : HashInput → String) : LedgerState → Prop where
  | init (t0 : Nat) : LedgerReachable H (ledgerInit H t0)
  | submit (st : LedgerState) (newId : String) (now : Nat)
      (td : List (String × Value)) : LedgerReachable H st →
      LedgerReachable H (create_blockchain_transaction newId now td st).2
  | mine (st : LedgerState) (fuel now : Nat) (r : Option Block)
      (st' : LedgerState) : LedgerReachable H st →
      mine_pending_transactions H fuel now st = some (r, st') →
      LedgerReachable H st'
  | handle (st : LedgerState) (fuel : Nat) (newId : String) (now : Nat)
      (msg : Message) (st' : LedgerState) (outs : List OutMsg) :
      LedgerReachable H st →
      blockchainProcessMessage H fuel newId now st msg = some (st', outs) →
      LedgerReachable H st'

/-- Every reachable ledger state has a valid, nonempty chain. -/
theorem ledger_inv (H : HashInput → String) (st : LedgerState)
    (h : LedgerReachable H st) :
    validate_chain H st.chain = true ∧ st.chain ≠ [] := by
  induction h with
  | init t0 =>
      constructor
      · rfl
      · simp [ledgerInit]
  | submit st newId now td _ ih =>
      simpa [create_blockchain_transaction] using ih
  | mine st fuel now r st' _ hm ih =>
      exact mine_preserves_valid H fuel now st r st' ih.2 ih.1 hm
  | handle st fuel newId now msg st' outs _ hm ih =>
      exact handle_preserves_valid H fuel newId now st st' msg outs ih.2 ih.1 hm

/-- Index-wise characterization of `validate_chain`. -/
theorem validate_chain_iff (H : HashInput → String) (c : List Block) :
    validate_chain H c = true ↔
    (∀ i b p, 0 < i → c.get? i = some b → c.get? (i - 1) = some p →
      b.hash = calculateHash H b ∧ b.previous_hash = p.hash) := by
  cases c with
  | nil =>
      constructor
      · intro _ i b p _ hb _
        simp at hb
      · intro _
        rfl
  | cons g rest =>
      rw [show validate_chain H (g :: rest) = validateFrom H g rest from rfl,
        validateFrom_iff H rest g]
      constructor
      · intro hr i b p hi hb hp
        obtain ⟨j, rfl⟩ : ∃ j, i = j + 1 := ⟨i - 1, by omega⟩
        refine hr j b p (by simpa using hb) ?_
        simpa [Nat.add_sub_cancel] using hp
      · intro hr j b p hb hp
        refine hr (j + 1) b p (by omega) (by simpa using hb) ?_
        simpa [Nat.add_sub_cancel] using hp

/-! ## Claims about the ledger -/

/-- C3: `validate_chain` is true exactly when every non-genesis block's
stored hash recomputes from its own stored fields and its
`previous_hash` equals the previous block's hash; the boolean agrees
with absence of a reported failing index; and it returns true
immediately after any successful `mine_pending_transactions` call on a
reachable ledger state. -/
theorem claim_C3 (H : HashInput → String) :
    (∀ c : List Block, validate_chain H c = true ↔
      (∀ i b p, 0 < i → c.get? i = some b → c.get? (i - 1) = some p →
        b.hash = calculateHash H b ∧ b.previous_hash = p.hash)) ∧
    (∀ c : List Block,
      validate_chain H c = (firstInvalidIndex H c).isNone) ∧
    (∀ st fuel now r st', LedgerReachable H st →
      mine_pending_transactions H fuel now st = some (r, st') →
      validate_chain H st'.chain = true) := by
  refine ⟨validate_chain_iff H, validate_chain_eq_isNone H, ?_⟩
  intro st fuel now r st' hreach hm
  obtain ⟨hv, hne⟩ := ledger_inv H st hreach
  exact (mine_preserves_valid H fuel now st r st' hne hv hm).1

/-- Sample hash function for concrete evaluations: a constant digest
meeting the difficulty target. -/
def H0 : HashInput → String := fun _ => "0000"

/-- Sample ledger after one submitted transaction. -/
def ledgerDemo1 : LedgerState :=
  (create_blockchain_transaction "b1" 0
    [("transaction_id", .str "t1"), ("amount", .int 100),
     ("sender_account", .str "acct_a"), ("recipient_account", .str "acct_b")]
    (ledgerInit H0 0)).2

/-- Ledger state after mining the sample transaction. -/
def ledgerDemo2 : LedgerState :=
  match mine_pending_transactions H0 2 1 ledgerDemo1 with
  | some (_, st') => st'
  | none => ledgerDemo1

/-- Block produced by mining the sample transaction. -/
def minedDemoBlock : Option Block :=
  match mine_pending_transactions H0 2 1 ledgerDemo1 with
  | some (b, _) => b
  | none => none

/-- Witness for C3: the chain validates after a concrete successful
mine. -/
theorem claim_C3_witness : validate_chain H0 ledgerDemo2.chain = true :=
  (claim_C3 H0).2.2 ledgerDemo1 2 1 minedDemoBlock ledgerDemo2
    (LedgerReachable.submit (ledgerInit H0 0) "b1" 0
      [("transaction_id", .str "t1"), ("amount", .int 100),
       ("sender_account", .str "acct_a"),
       ("recipient_account", .str "acct_b")]
      (LedgerReachable.init 0))
    rfl

/-- Hash function for the C5 counterexample: a constant digest without
leading zeros, as a generic sha256 digest would be with overwhelming
probability. -/
def Hff : HashInput → String := fun _ => "ffff"

/-- Counterexample to C5 as stated: `_create_genesis_block` computes
the genesis hash once with `_calculate_hash` and never runs the
proof-of-work loop `_mine_block`, so the genesis hash need not start
with four zero characters. -/
theorem claim_C5_counterexample :
    pyStartsWith (genesisBlock Hff 0).hash powTarget = false := by decide

/-- C5 amended: at Ledger initialization exactly one genesis block is
created, with index 0, an empty transaction list, previous hash "0"
and nonce 0; its hash is computed once by `_calculate_hash` from its
own stored fields, but no proof-of-work search is applied to it, so
its hash carries no leading-zero guarantee. -/
theorem claim_C5_amended (H : HashInput → String) (t0 : Nat) :
    (ledgerInit H t0).chain = [genesisBlock H t0] ∧
    (genesisBlock H t0).index = 0 ∧
    (genesisBlock H t0).transactions = [] ∧
    (genesisBlock H t0).previous_hash = "0" ∧
    (genesisBlock H t0).nonce = 0 ∧
    (genesisBlock H t0).hash = calculateHash H (genesisBlock H t0) ∧
    (ledgerInit H t0).pending_transactions = [] ∧
    (ledgerInit H t0).confirmed_transactions = [] :=
  ⟨rfl, rfl, rfl, rfl, rfl, rfl, rfl, rfl⟩

/-- Ledger with twelve submitted transactions. -/
def ledgerDemo12 : LedgerState :=
  (List.range 12).foldl
    (fun s n => (create_blockchain_transaction (toString n) 0
      [("transaction_id", .str (toString n))] s).2)
    (ledgerInit H0 0)

/-- Ledger after the first mine of the twelve-transaction scenario. -/
def ledgerDemo13 : LedgerState :=
  match mine_pending_transactions H0 2 1 ledgerDemo12 with
  | some (_, st') => st'
  | none => ledgerDemo12

/-- Block of the first mine of the twelve-transaction scenario. -/
def demoBlock1 : Option Block :=
  match mine_pending_transactions H0 2 1 ledgerDemo12 with
  | some (b, _) => b
  | none => none

/-- Ledger after the second mine of the twelve-transaction scenario. -/
def ledgerDemo14 : LedgerState :=
  match mine_pending_transactions H0 2 2 ledgerDemo13 with
  | some (_, st') => st'
  | none => ledgerDemo13

/-- Block of the second mine of the twelve-transaction scenario. -/
def demoBlock2 : Option Block :=
  match mine_pending_transactions H0 2 2 ledgerDemo13 with
  | some (b, _) => b
  | none => none

/-- C4: mining on an empty queue is a no-op returning none; a
successful mine on a nonempty queue returns a block built from exactly
min(10, queue length) transactions taken from the front, at index
equal to the chain length, linked to the tip hash, with a mined hash
meeting the four-zero target; it appends the block, marks exactly the
taken transactions confirmed with that block's index, and leaves the
rest pending in order.  Concretely, after submitting 12 transactions,
one mine confirms 10 in block index 1 leaving 2 pending, and a second
mine confirms the remaining 2 in block index 2. -/
theorem claim_C4 (H : HashInput → String) (fuel now : Nat)
    (st : LedgerState) :
    (st.pending_transactions = [] →
      mine_pending_transactions H fuel now st = some (none, st)) ∧
    (∀ b st', st.pending_transactions ≠ [] →
      mine_pending_transactions H fuel now st = some (some b, st') →
      b.index = st.chain.length ∧
      b.previous_hash = chainTipHash st.chain ∧
      pyStartsWith b.hash powTarget = true ∧
      b.hash = calculateHash H b ∧
      b.transactions = (st.pending_transactions.take 10).map toRecord ∧
      b.transactions.length = min 10 st.pending_transactions.length ∧
      st'.chain = st.chain ++ [b] ∧
      st'.pending_transactions = st.pending_transactions.drop 10 ∧
      st'.confirmed_transactions =
        ((st.pending_transactions.take 10).map
          (fun tx => { tx with
                        status := "confirmed",
                        block_index := some b.index })).foldl
          (fun d tx => dictInsert tx.id tx d) st.confirmed_transactions) ∧
    (∀ r st', st.pending_transactions ≠ [] →
      mine_pending_transactions H fuel now st = some (r, st') →
      ∃ b, r = some b) ∧
    (demoBlock1.map Block.index = some 1 ∧
     demoBlock1.map (fun b => b.transactions.length) = some 10 ∧
     ledgerDemo13.pending_transactions.length = 2 ∧
     demoBlock2.map Block.index = some 2 ∧
     demoBlock2.map (fun b => b.transactions.length) = some 2 ∧
     ledgerDemo14.pending_transactions.length = 0 ∧
     (∀ p ∈ ledgerDemo13.confirmed_transactions,
        p.2.status = "confirmed" ∧ p.2.block_index = some 1)) := by
  refine ⟨?_, ?_, ?_, by decide⟩
  · intro hemp
    unfold mine_pending_transactions
    rw [if_pos (by simp [hemp])]
  · intro b st' hne h
    unfold mine_pending_transactions at h
    rw [if_neg (by simpa using hne)] at h
    simp only [] at h
    rcases hm : mineBlockAux H fuel
        { index := st.chain.length, timestamp := now,
          transactions := (st.pending_transactions.take 10).map toRecord,
          previous_hash := chainTipHash st.chain, hash := "", nonce := 0 }
      with _ | mined
    · rw [hm] at h
      simp at h
    · rw [hm] at h
      simp only [Option.some.injEq, Prod.mk.injEq] at h
      obtain ⟨hb, hst⟩ := h
      obtain rfl : mined = b := by simpa using hb
      obtain ⟨hstart, hprev, hidx, hts, htxs, hid⟩ :=
        mineBlockAux_spec H fuel _ mined hm
      have hhash : mined.hash = calculateHash H mined := by
        rcases hid with rfl | hhash
        · have hstart' : pyStartsWith "" powTarget = true := hstart
          exact absurd hstart' (by decide)
        · exact hhash
      subst hst
      refine ⟨by simpa using hidx, by simpa using hprev, hstart, hhash,
        by simpa using htxs, ?_, rfl, rfl, rfl⟩
      rw [show mined.transactions =
        (st.pending_transactions.take 10).map toRecord by simpa using htxs]
      simp [List.length_map, List.length_take]
  · intro r st' hne h
    unfold mine_pending_transactions at h
    rw [if_neg (by simpa using hne)] at h
    simp only [] at h
    rcases hm : mineBlockAux H fuel
        { index := st.chain.length, timestamp := now,
          transactions := (st.pending_transactions.take 10).map toRecord,
          previous_hash := chainTipHash st.chain, hash := "", nonce := 0 }
      with _ | mined
    · rw [hm] at h
      simp at h
    · rw [hm] at h
      simp only [Option.some.injEq, Prod.mk.injEq] at h
      exact ⟨mined, h.1.symm⟩

/-- Witness for C4: the first mine of the twelve-transaction scenario,
with the hypotheses discharged concretely. -/
theorem claim_C4_witness :
    (demoBlock1.getD dummyBlock).index = ledgerDemo12.chain.length ∧
    ledgerDemo13.pending_transactions =
      ledgerDemo12.pending_transactions.drop 10 := by
  have h := (claim_C4 H0 2 1 ledgerDemo12).2.1 (demoBlock1.getD dummyBlock)
    ledgerDemo13 (by decide) rfl
  exact ⟨h.1, h.2.2.2.2.2.2.2.1⟩

/-! ## Verification lemmas for the ledger -/

theorem dictGet_append {α : Type u} (k : String) :
    ∀ (d e : List (String × α)),
      dictGet k (d ++ e) =
        match dictGet k d with
        | some v => some v
        | none => dictGet k e := by
  intro d e
  induction d with
  | nil => simp [dictGet]
  | cons q rest ih =>
      obtain ⟨a, b⟩ := q
      by_cases ha : a = k
      · subst ha
        simp [dictGet]
      · simp only [List.cons_append, dictGet, if_neg ha]
        exact ih

theorem dictInsert_eq_append {α : Type u} (k : String) (v : α)
    (d : List (String × α)) (h : dictContains k d = false) :
    dictInsert k v d = d ++ [(k, v)] := by
  induction d with
  | nil => rfl
  | cons q rest ih =>
      obtain ⟨a, b⟩ := q
      by_cases ha : a = k
      · subst ha
        simp [dictContains, dictGet] at h
      · simp only [dictInsert, if_neg ha, List.cons_append, List.cons.injEq,
          true_and]
        refine ih ?_
        simpa [dictContains, dictGet, ha] using h

/-- Confirming freshly-identified transactions appends them, in order,
to the confirmed dictionary. -/
theorem foldl_dictInsert_eq_append :
    ∀ (l : List BlockchainTransaction)
      (d : List (String × BlockchainTransaction)),
      (∀ tx ∈ l, dictContains tx.id d = false) →
      (l.map BlockchainTransaction.id).Nodup →
      l.foldl (fun d tx => dictInsert tx.id tx d) d =
        d ++ l.map (fun tx => (tx.id, tx)) := by
  intro l
  induction l with
  | nil =>
      intro d _ _
      simp
  | cons x rest ih =>
      intro d hfresh hnd
      simp only [List.map_cons, List.nodup_cons] at hnd
      simp only [List.foldl_cons, List.map_cons]
      rw [dictInsert_eq_append x.id x d (hfresh x (by simp))]
      rw [ih (d ++ [(x.id, x)]) ?_ hnd.2]
      · simp
      · intro tx htx
        apply bool_eq_false_of_not
        intro hc
        rw [dictContains_iff_mem_keys] at hc
        rw [show dictKeys (d ++ [(x.id, x)]) = dictKeys d ++ [x.id] by
          simp [dictKeys]] at hc
        rcases List.mem_append.1 hc with hc | hc
        · have := hfresh tx (List.mem_cons_of_mem _ htx)
          rw [← dictContains_iff_mem_keys] at hc
          exact Bool.false_ne_true (this.symm.trans hc)
        · rw [List.mem_singleton] at hc
          exact hnd.1 (hc ▸ List.mem_map_of_mem BlockchainTransaction.id htx)

/-- Python `list.index` on the element found by a scan equals the index
of the first match, for duplicate-free lists. -/
theorem pyListIndex_eq_findIdx {α : Type u} [DecidableEq α] (p : α → Bool) :
    ∀ (l : List α) (a : α), l.Nodup → l.find? p = some a →
      pyListIndex a l = l.findIdx p := by
  intro l
  induction l with
  | nil =>
      intro a _ h
      simp [List.find?] at h
  | cons x rest ih =>
      intro a hnd hf
      by_cases hp : p x = true
      · rw [List.find?_cons_of_pos _ hp] at hf
        obtain rfl : x = a := by simpa using hf
        simp [pyListIndex, List.findIdx_cons, hp]
      · rw [List.find?_cons_of_neg _ hp] at hf
        have ha : a ∈ rest := List.mem_of_find?_eq_some hf
        have hax : x ≠ a := by
          rintro rfl
          exact (List.nodup_cons.1 hnd).1 ha
        simp only [pyListIndex, if_neg hax, List.findIdx_cons, hp,
          Bool.false_eq_true, cond_false]
        rw [ih a (List.nodup_cons.1 hnd).2 hf]

theorem find?_append_none {α : Type u} (p : α → Bool) (l₁ l₂ : List α) :
    l₁.find? p = none → (l₁ ++ l₂).find? p = l₂.find? p := by
  induction l₁ with
  | nil => intro _; simp
  | cons x rest ih =>
      intro h
      by_cases hp : p x = true
      · rw [List.find?_cons_of_pos _ hp] at h
        simp at h
      · rw [List.find?_cons_of_neg _ hp] at h
        simp only [List.cons_append]
        rw [List.find?_cons_of_neg _ hp]
        exact ih h

/-- Scanning the pairs produced by confirming a batch finds exactly the
confirmed form of the first transaction carrying the sought id. -/
theorem find?_confirm_map (tid : String) (bidx : Nat) :
    ∀ (l : List BlockchainTransaction) (btx : BlockchainTransaction),
      l.find? (fun tx => tx.transaction_id == tid) = some btx →
      ((l.map (fun tx =>
          { tx with status := "confirmed", block_index := some bidx })).map
        (fun tx => (tx.id, tx))).find?
        (fun p => p.2.transaction_id == tid) =
        some (btx.id,
          { btx with status := "confirmed", block_index := some bidx }) := by
  intro l
  induction l with
  | nil =>
      intro btx h
      simp [List.find?] at h
  | cons x rest ih =>
      intro btx h
      simp only [List.find?] at h
      by_cases hp : (x.transaction_id == tid) = true
      · rw [hp] at h
        obtain rfl : x = btx := by simpa using h
        simp only [List.map_cons, List.find?]
        rw [hp]
      · rw [bool_eq_false_of_not hp] at h
        simp only [List.map_cons, List.find?]
        rw [bool_eq_false_of_not hp]
        exact ih btx h

theorem getD_append_length (l : List Block) (b d : Block) :
    (l ++ [b]).getD l.length d = b := by
  induction l with
  | nil => rfl
  | cons x rest ih =>
      simp only [List.cons_append, List.length_cons, List.getD_cons_succ]
      exact ih

/-- State effect of a successful mine on a nonempty queue. -/
theorem mine_pending_effect (H : HashInput → String) (fuel now : Nat)
    (st : LedgerState) (b : Block) (st' : LedgerState)
    (hne : st.pending_transactions ≠ [])
    (h : mine_pending_transactions H fuel now st = some (some b, st')) :
    b.index = st.chain.length ∧
    b.transactions = (st.pending_transactions.take 10).map toRecord ∧
    st'.chain = st.chain ++ [b] ∧
    st'.pending_transactions = st.pending_transactions.drop 10 ∧
    st'.confirmed_transactions =
      ((st.pending_transactions.take 10).map
        (fun tx =>
          { tx with status := "confirmed", block_index := some b.index })).foldl
        (fun d tx => dictInsert tx.id tx d) st.confirmed_transactions := by
  unfold mine_pending_transactions at h
  rw [if_neg (by simpa using hne)] at h
  simp only [] at h
  rcases hm : mineBlockAux H fuel
      { index := st.chain.length, timestamp := now,
        transactions := (st.pending_transactions.take 10).map toRecord,
        previous_hash := chainTipHash st.chain, hash := "", nonce := 0 }
    with _ | mined
  · rw [hm] at h
    simp at h
  · rw [hm] at h
    simp only [Option.some.injEq, Prod.mk.injEq] at h
    obtain ⟨hb, hst⟩ := h
    obtain rfl : mined = b := by simpa using hb
    obtain ⟨-, -, hidx, -, htxs, -⟩ := mineBlockAux_spec H fuel _ mined hm
    subst hst
    exact ⟨by simpa using hidx, by simpa using htxs, rfl, rfl, rfl⟩

/-- C6: `verify_transaction` scans confirmed transactions before
pending ones; before any mine that includes it, a submitted id reports
status "pending" with its 1-based queue position; a confirmed id
reports status "confirmed" with confirmations = chain length minus its
block index, which is at least 1 for in-chain indices; an unknown id
reports not found; and immediately after a mine that includes it, an
id reports "confirmed" with exactly one confirmation. -/
theorem claim_C6 (H : HashInput → String) (st : LedgerState) (tid : String)
    (fuel now : Nat) :
    (∀ btx, st.pending_transactions.Nodup →
      st.confirmed_transactions.find?
        (fun p => p.2.transaction_id == tid) = none →
      st.pending_transactions.find?
        (fun tx => tx.transaction_id == tid) = some btx →
      verify_transaction st tid =
        [("verified", .bool true), ("status", .str "pending"),
         ("blockchain_tx_id", .str btx.id),
         ("position_in_queue",
          .int ((st.pending_transactions.findIdx
            (fun tx => tx.transaction_id == tid) : Int) + 1))]) ∧
    (∀ k btx bi, st.confirmed_transactions.find?
        (fun p => p.2.transaction_id == tid) = some (k, btx) →
      btx.block_index = some bi →
      bi < st.chain.length →
      verify_transaction st tid =
        [("verified", .bool true), ("status", .str "confirmed"),
         ("block_index", .int bi),
         ("block_hash", .str ((st.chain.getD bi dummyBlock).hash)),
         ("confirmations", .int ((st.chain.length : Int) - (bi : Int))),
         ("blockchain_tx_id", .str btx.id)] ∧
      1 ≤ (st.chain.length : Int) - (bi : Int)) ∧
    (∀ entry, st.confirmed_transactions.find?
        (fun p => p.2.transaction_id == tid) = some entry →
      dictGet "status" (verify_transaction st tid) =
        some (.str "confirmed")) ∧
    (st.confirmed_transactions.find?
        (fun p => p.2.transaction_id == tid) = none →
      st.pending_transactions.find?
        (fun tx => tx.transaction_id == tid) = none →
      verify_transaction st tid =
        [("verified", .bool false), ("status", .str "not_found"),
         ("message", .str "Transaction not found on blockchain")]) ∧
    (∀ b st' btx, st.pending_transactions ≠ [] →
      mine_pending_transactions H fuel now st = some (some b, st') →
      (∀ tx ∈ st.pending_transactions.take 10,
        dictContains tx.id st.confirmed_transactions = false) →
      ((st.pending_transactions.take 10).map
        BlockchainTransaction.id).Nodup →
      st.confirmed_transactions.find?
        (fun p => p.2.transaction_id == tid) = none →
      (st.pending_transactions.take 10).find?
        (fun tx => tx.transaction_id == tid) = some btx →
      verify_transaction st' tid =
        [("verified", .bool true), ("status", .str "confirmed"),
         ("block_index", .int st.chain.length),
         ("block_hash", .str b.hash),
         ("confirmations", .int 1),
         ("blockchain_tx_id", .str btx.id)]) := by
  refine ⟨?_, ?_, ?_, ?_, ?_⟩
  · intro btx hnd hold hfind
    unfold verify_transaction
    rw [hold, hfind]
    simp only []
    rw [pyListIndex_eq_findIdx _ st.pending_transactions btx hnd hfind]
  · intro k btx bi hfind hbi hlt
    constructor
    · unfold verify_transaction
      rw [hfind]
      simp only [hbi, Option.getD_some]
    · omega
  · intro entry hfind
    unfold verify_transaction
    rw [hfind]
    simp [dictGet]
  · intro hold hpnone
    unfold verify_transaction
    rw [hold, hpnone]
  · intro b st' btx hne hm hfresh hnd hold hfind
    obtain ⟨hidx, htxs, hchain, hpend, hconf⟩ :=
      mine_pending_effect H fuel now st b st' hne hm
    have happend : st'.confirmed_transactions =
        st.confirmed_transactions ++
          ((st.pending_transactions.take 10).map
            (fun tx =>
              { tx with status := "confirmed",
                        block_index := some b.index })).map
            (fun tx => (tx.id, tx)) := by
      rw [hconf]
      refine foldl_dictInsert_eq_append _ _ ?_ ?_
      · intro tx htx
        rcases List.mem_map.1 htx with ⟨tx0, htx0, rfl⟩
        exact hfresh tx0 htx0
      · rw [List.map_map]
        exact hnd
    unfold verify_transaction
    rw [happend, find?_append_none _ _ _ hold,
      find?_confirm_map tid b.index _ btx hfind]
    simp only [Option.getD_some]
    rw [hchain, hidx]
    rw [getD_append_length]
    simp [List.length_append, Nat.cast_add, Nat.cast_one]

/-- Ledger transaction created by the sample submission. -/
def demoBtx1 : BlockchainTransaction :=
  { id := "b1", transaction_id := "t1", amount := 100, sender := "acct_a",
    recipient := "acct_b", timestamp := 0 }

/-- Witness for C6: the sample submission verifies as pending at queue
position 1 before mining, and as confirmed with one confirmation after
mining. -/
theorem claim_C6_witness :
    verify_transaction ledgerDemo1 "t1" =
      [("verified", .bool true), ("status", .str "pending"),
       ("blockchain_tx_id", .str demoBtx1.id),
       ("position_in_queue",
        .int ((ledgerDemo1.pending_transactions.findIdx
          (fun tx => tx.transaction_id == "t1") : Int) + 1))] ∧
    verify_transaction ledgerDemo2 "t1" =
      [("verified", .bool true), ("status", .str "confirmed"),
       ("block_index", .int ledgerDemo1.chain.length),
       ("block_hash", .str (minedDemoBlock.getD dummyBlock).hash),
       ("confirmations", .int 1),
       ("blockchain_tx_id", .str demoBtx1.id)] := by
  have h := claim_C6 H0 ledgerDemo1 "t1" 2 1
  exact ⟨h.1 demoBtx1 (by decide) rfl rfl,
    h.2.2.2.2 (minedDemoBlock.getD dummyBlock) ledgerDemo2 demoBtx1
      (by decide) rfl (by decide) (by decide) rfl rfl⟩

/-- A completed mine call on any queue leaves exactly the transactions
past the batch size pending. -/
theorem mine_pending_drop (H : HashInput → String) (fuel now : Nat)
    (st : LedgerState) (r : Option Block) (st' : LedgerState)
    (hne : st.pending_transactions ≠ [])
    (h : mine_pending_transactions H fuel now st = some (r, st')) :
    st'.pending_transactions = st.pending_transactions.drop 10 := by
  unfold mine_pending_transactions at h
  rw [if_neg (by simpa using hne)] at h
  simp only [] at h
  rcases hm : mineBlockAux H fuel
      { index := st.chain.length, timestamp := now,
        transactions := (st.pending_transactions.take 10).map toRecord,
        previous_hash := chainTipHash st.chain, hash := "", nonce := 0 }
    with _ | mined
  · rw [hm] at h
    simp at h
  · rw [hm] at h
    simp only [Option.some.injEq, Prod.mk.injEq] at h
    obtain ⟨-, hst⟩ := h
    subst hst
    rfl

/-- C10: on a `blockchain_record_request` the ledger queues the new
transaction, sends exactly one `blockchain_record_response`, and then
automatically mines when the queue has reached 5; consequently, when
the handler returns, a queue that held fewer than 5 transactions
before the request still holds fewer than 5. -/
theorem claim_C10 (H : HashInput → String) (fuel : Nat) (newId : String)
    (now : Nat) (st st' : LedgerState) (msg : Message) (outs : List OutMsg)
    (h1 : msg.message_type = "blockchain_record_request")
    (h : blockchainProcessMessage H fuel newId now st msg = some (st', outs)) :
    outs.map OutMsg.message_type = ["blockchain_record_response"] ∧
    (st.pending_transactions.length + 1 ≥ 5 →
      st'.pending_transactions.length =
        st.pending_transactions.length + 1 - 10) ∧
    (st.pending_transactions.length + 1 < 5 →
      st'.pending_transactions =
        st.pending_transactions ++
          [(create_blockchain_transaction newId now
             (payloadDictD msg.payload "transaction_data") st).1]) ∧
    (st.pending_transactions.length < 5 →
      st'.pending_transactions.length < 5) := by
  unfold blockchainProcessMessage at h
  rw [if_pos h1] at h
  simp only [] at h
  have hlen2 : (create_blockchain_transaction newId now
      (payloadDictD msg.payload "transaction_data")
      st).2.pending_transactions.length
      = st.pending_transactions.length + 1 := by
    simp [create_blockchain_transaction]
  by_cases h5 : (create_blockchain_transaction newId now
      (payloadDictD msg.payload "transaction_data")
      st).2.pending_transactions.length ≥ 5
  · rw [if_pos h5] at h
    rcases hm : mine_pending_transactions H fuel now
        (create_blockchain_transaction newId now
          (payloadDictD msg.payload "transaction_data") st).2 with _ | p
    · rw [hm] at h
      simp at h
    · obtain ⟨rb, st''⟩ := p
      rw [hm] at h
      simp only [Option.some.injEq, Prod.mk.injEq] at h
      obtain ⟨hst, houts⟩ := h
      subst hst
      subst houts
      have hne2 : (create_blockchain_transaction newId now
          (payloadDictD msg.payload "transaction_data")
          st).2.pending_transactions ≠ [] := by
        intro hnil
        rw [hnil] at hlen2
        simp at hlen2
      have hdrop := mine_pending_drop H fuel now _ rb st'' hne2 hm
      refine ⟨rfl, ?_, ?_, ?_⟩
      · intro _
        rw [hdrop, List.length_drop, hlen2]
      · intro hlt
        rw [hlen2] at h5
        omega
      · intro hlt
        rw [hdrop, List.length_drop, hlen2]
        omega
  · rw [if_neg h5] at h
    simp only [Option.some.injEq, Prod.mk.injEq] at h
    obtain ⟨hst, houts⟩ := h
    subst hst
    subst houts
    rw [hlen2] at h5
    refine ⟨rfl, ?_, ?_, ?_⟩
    · intro hge
      omega
    · intro _
      rfl
    · intro _
      rw [hlen2]
      omega

/-- Ledger with four submitted transactions. -/
def ledgerDemo4 : LedgerState :=
  (List.range 4).foldl
    (fun s n => (create_blockchain_transaction (toString n) 0
      [("transaction_id", .str (toString n))] s).2)
    (ledgerInit H0 0)

/-- Fifth recording request, which triggers the automatic mine. -/
def recordReqMsg : Message :=
  { id := "m9", sender := "transaction_processor",
    recipient := "blockchain_agent",
    message_type := "blockchain_record_request",
    payload := [("transaction_data", .dict
      [("transaction_id", .str "t9"), ("amount", .int 5),
       ("sender_account", .str "acct_a"),
       ("recipient_account", .str "acct_b")])],
    timestamp := 9, correlation_id := some "t9" }

/-- Ledger after handling the fifth recording request. -/
def ledgerDemo5 : LedgerState :=
  match blockchainProcessMessage H0 2 "b9" 9 ledgerDemo4 recordReqMsg with
  | some (st', _) => st'
  | none => ledgerDemo4

/-- Messages sent while handling the fifth recording request. -/
def ledgerDemo5outs : List OutMsg :=
  match blockchainProcessMessage H0 2 "b9" 9 ledgerDemo4 recordReqMsg with
  | some (_, outs) => outs
  | none => []

/-- Witness for C10: the fifth submission via a record request leaves
the queue below five entries (the batch was auto-mined) and exactly
one record response is sent. -/
theorem claim_C10_witness :
    ledgerDemo5outs.map OutMsg.message_type =
      ["blockchain_record_response"] ∧
    ledgerDemo5.pending_transactions.length < 5 := by
  have h := claim_C10 H0 2 "b9" 9 ledgerDemo4 ledgerDemo5 recordReqMsg
    ledgerDemo5outs rfl rfl
  exact ⟨h.1, h.2.2.2 (by decide)⟩
